import Mathlib

/-!
# niar: the CXXRTL test-bench driver `template/cxxrtl/main.cc`

A shallow embedding of the driver and of the three objects it works on:

* `top`, the design under test (`cxxrtl_design::p_newproject`), an opaque
  state machine with the input pins `p_clk`, `p_rst` and the output pins
  `p_ledr`, `p_ledg`;
* `vcd`, the waveform recorder (`cxxrtl::vcd_writer`);
* `vcd_time`, the `uint64_t` delta counter.

The design and the recorder are external to the driver, so they are parameters
(`Design`, `Recorder`).  Every observable action of the driver (pin write,
model step, sample, pin read, stream output, file write) is recorded as an
`Event`, in program order, next to the state it produces.
-/

namespace Niar

/-! ## Data model -/

/-- The design object `top`: the two input pins the driver writes, and the
opaque rest of the design (registers and output pins). -/
structure Top (σ : Type) where
  p_clk : Bool
  p_rst : Bool
  st : σ

/-- The interface the driver uses from the generated design class:
`step()` (one delta under the current input pins), `p_ledr.get<int>()`,
the truth value of `p_ledg`, `debug_info(&di, nullptr, path)`, and the state
of the statically constructed object. -/
structure Design (σ δ : Type) where
  init : σ
  step : Bool → Bool → σ → σ
  ledr : σ → Int
  ledg : σ → Bool
  debug_info : String → δ

/-- The interface the driver uses from `cxxrtl::vcd_writer`: `add(di)`,
`sample(timestamp)` (which reads the live design through the registered
items) and the public `buffer`. -/
structure Recorder (σ δ ρ : Type) where
  init : ρ
  add : δ → ρ → ρ
  sample : Nat → Top σ → ρ → ρ
  buffer : ρ → String

/-- The three file-level statics of `main.cc`. -/
structure Sim (σ ρ : Type) where
  top : Top σ
  vcd : ρ
  vcd_time : Nat

/-- Observable actions of the driver, in the order the program performs them. -/
inductive Event where
  | setClk (b : Bool)
  | setRst (b : Bool)
  | topStep (clk rst : Bool)
  | vcdSample (t : Nat)
  | debugInfo (path : String)
  | vcdAdd
  | getLedr (v : Int)
  | getLedg (b : Bool)
  | cerrUnknownArg (arg : String)
  | cerrLedr (i j : Nat)
  | coutFinished (n : Nat)
  | writeFile (path : String) (buf : String)
  deriving DecidableEq, Repr

/-- A statement of the driver: it maps the statics to the events it performs
and the statics it leaves. -/
abbrev Act (σ ρ : Type) := Sim σ ρ → List Event × Sim σ ρ

/-- Statements executed one after the other. -/
def runAll {σ ρ : Type} : List (Act σ ρ) → Act σ ρ
  | [] => fun s => ([], s)
  | a :: rest => fun s =>
      let r1 := a s
      let r2 := runAll rest r1.2
      (r1.1 ++ r2.1, r2.2)

/-- The width of `vcd_time` (`uint64_t`). -/
def U64 : Nat := 2 ^ 64

/-! ## The statements of `step()` and `main` -/

variable {σ δ ρ : Type}

/-- `top.p_clk.set(b)`. -/
def setClk (b : Bool) : Act σ ρ := fun s =>
  ([Event.setClk b], { s with top := { s.top with p_clk := b } })

/-- `top.p_rst.set(b)`. -/
def setRst (b : Bool) : Act σ ρ := fun s =>
  ([Event.setRst b], { s with top := { s.top with p_rst := b } })

/-- `top.step()`: one delta of the design under the current input pins. -/
def topStep (d : Design σ δ) : Act σ ρ := fun s =>
  ([Event.topStep s.top.p_clk s.top.p_rst],
   { s with top := { s.top with st := d.step s.top.p_clk s.top.p_rst s.top.st } })

/-- `vcd.sample(vcd_time++)`: the recorder samples with the old counter value,
the counter is incremented in `uint64_t`. -/
def vcdSample (r : Recorder σ δ ρ) : Act σ ρ := fun s =>
  ([Event.vcdSample s.vcd_time],
   { s with vcd := r.sample s.vcd_time s.top s.vcd, vcd_time := (s.vcd_time + 1) % U64 })

/-- `static void step()` (main.cc lines 13-20). -/
def step (d : Design σ δ) (r : Recorder σ δ ρ) : Act σ ρ :=
  runAll [setClk true, topStep d, vcdSample r, setClk false, topStep d, vcdSample r]

/-- `debug_items di; top.debug_info(&di, nullptr, "top "); vcd.add(di);`
(main.cc lines 35-37). -/
def registerItems (d : Design σ δ) (r : Recorder σ δ ρ) : Act σ ρ := fun s =>
  ([Event.debugInfo "top ", Event.vcdAdd], { s with vcd := r.add (d.debug_info "top ") s.vcd })

/-- The argument loop of `main` (lines 25-32) on `argv[i..argc-1]`: `--vcd`
followed by at least one more token (`argc >= i + 2`) takes that token as the
path and skips it (`argv[++i]`); anything else is reported and ends `main`
with status 2 (`Except.error` carries the reported token). -/
def parseArgs : List String → Option String → Except String (Option String)
  | [], vcd_out => Except.ok vcd_out
  | a :: rest, _ =>
      if a = "--vcd" then
        match rest with
        | p :: rest2 => parseArgs rest2 (some p)
        | [] => Except.error a
      else Except.error a

/-- The locals `rc` and `done` of `main`. -/
structure Frame where
  rc : Int
  done : Bool
  deriving DecidableEq, Repr

/-- How a loop is left: normally, with the locals and statics it leaves, or by
a failed `assert`, which ends the process. -/
inductive Res (σ ρ : Type) where
  | cont (f : Frame) (s : Sim σ ρ)
  | abort (s : Sim σ ρ)

/-- The inner `for (int j = 0; j < (CLOCK_HZ / 4); ++j)` loop (lines 54-65)
for segment `i` with expected level `e`; `n` is the number of iterations left
before `j < CLOCK_HZ / 4` fails, `j` the loop counter.  The `assert` of line 62
is taken as compiled in (no `NDEBUG`): its evaluation is the event `getLedg`.

Range of the model: `j` is a C `int`.  While `CLOCK_HZ / 4 <= INT_MAX` every
value `j` takes (at most `CLOCK_HZ / 4`) is an `int` and this countdown is the
loop.  For a larger quotient `++j` overflows at `INT_MAX`, which C leaves
undefined (as compiled, `j` wraps and the segment never ends by its bound);
the countdown does not describe the program there.  Every statement below that
depends on how many iterations run therefore assumes
`cyclesPerSegment CLOCK_HZ < 2 ^ 31`. -/
def innerLoop (d : Design σ δ) (r : Recorder σ δ ρ) (e : Int) (i : Nat) :
    Nat → Nat → Frame → Sim σ ρ → List Event × Res σ ρ
  | 0, _, f, s => ([], Res.cont f s)
  | n + 1, j, f, s =>
      let v := d.ledr s.top.st
      if v ≠ e then
        ([Event.getLedr v, Event.cerrLedr i j], Res.cont { rc := 1, done := true } s)
      else
        let g := d.ledg s.top.st
        if g then
          let r1 := step d r s
          let r2 := innerLoop d r e i n (j + 1) f r1.2
          ([Event.getLedr v, Event.getLedg g] ++ r1.1 ++ r2.1, r2.2)
        else
          ([Event.getLedr v, Event.getLedg g], Res.abort s)

/-- The outer `for (i = 0; i < expected.size() && !done; ++i)` loop (lines
53-66) on the entries `expected[i..]`; `cps` is `CLOCK_HZ / 4`. -/
def outerLoop (d : Design σ δ) (r : Recorder σ δ ρ) (cps : Nat) :
    List Int → Nat → Frame → Sim σ ρ → List Event × Res σ ρ
  | [], _, f, s => ([], Res.cont f s)
  | e :: rest, i, f, s =>
      if f.done then ([], Res.cont f s)
      else
        match innerLoop d r e i cps 0 f s with
        | (l1, Res.abort s1) => (l1, Res.abort s1)
        | (l1, Res.cont f1 s1) =>
            let r2 := outerLoop d r cps rest (i + 1) f1 s1
            (l1 ++ r2.1, r2.2)

/-- `std::vector<int> expected` (line 52). -/
def expected : List Int := [0, 1, 1, 0, 0, 1, 1, 0]

/-- `CLOCK_HZ / 4` in C: the quotient truncated towards zero; as a loop bound
for a counter starting at 0 a non-positive quotient is the same as 0. -/
def cyclesPerSegment (CLOCK_HZ : Int) : Nat := (Int.tdiv CLOCK_HZ 4).toNat

/-- How the process ends: `main` returns a status, or an `assert` fails. -/
inductive Status where
  | exit (rc : Int)
  | assertFailed
  deriving DecidableEq, Repr

/-- One run of the program: how it ended, what it did, and the statics at the
end. -/
structure Run (σ ρ : Type) where
  status : Status
  log : List Event
  final : Sim σ ρ

/-- The statics before `main` starts: both input pins low, the design and the
recorder as constructed, `vcd_time = 0`. -/
def initSim (d : Design σ δ) (r : Recorder σ δ ρ) : Sim σ ρ :=
  { top := { p_clk := false, p_rst := false, st := d.init }, vcd := r.init, vcd_time := 0 }

/-- Lines 34-43 of `main`: registration when `vcd_out` has a value, then the
reset cycle. -/
def startup (d : Design σ δ) (r : Recorder σ δ ρ) (vcd_out : Option String) : Act σ ρ :=
  runAll [ (if vcd_out.isSome then registerItems d r else fun s => ([], s)),
           setRst true, step d r, setRst false]

/-- Lines 68-75 of `main`, after the loops were left normally: the "finished"
line with `vcd_time >> 1`, then, when `vcd_out` has a value, the write of
`vcd.buffer` to that path (the event records the attempt with its content). -/
def finish (r : Recorder σ δ ρ) (vcd_out : Option String) (l : List Event) (f : Frame)
    (s : Sim σ ρ) : Run σ ρ :=
  let l1 := l ++ [Event.coutFinished (s.vcd_time >>> 1)]
  let l2 := match vcd_out with
    | some p => l1 ++ [Event.writeFile p (r.buffer s.vcd)]
    | none => l1
  { status := Status.exit f.rc, log := l2, final := s }

/-- The function `int main(int argc, char **argv)`; `args` is `argv[1..argc-1]`. -/
def main (d : Design σ δ) (r : Recorder σ δ ρ) (CLOCK_HZ : Int) (args : List String) :
    Run σ ρ :=
  match parseArgs args none with
  | Except.error a =>
      { status := Status.exit 2, log := [Event.cerrUnknownArg a], final := initSim d r }
  | Except.ok vcd_out =>
      let r0 := startup d r vcd_out (initSim d r)
      match outerLoop d r (cyclesPerSegment CLOCK_HZ) expected 0 { rc := 0, done := false } r0.2 with
      | (l, Res.abort s) => { status := Status.assertFailed, log := r0.1 ++ l, final := s }
      | (l, Res.cont f s) => finish r vcd_out (r0.1 ++ l) f s

/-! ## Reference notions used to state the properties -/

/-- The statics after `c` further calls of `step()`. -/
def afterSteps (d : Design σ δ) (r : Recorder σ δ ρ) : Nat → Sim σ ρ → Sim σ ρ
  | 0, s => s
  | c + 1, s => afterSteps d r c (step d r s).2

/-- The statics at the start of verification cycle `c`: after registration
(if any), the reset cycle, and `c` further calls of `step()`. -/
def atCycle (d : Design σ δ) (r : Recorder σ δ ρ) (vcd_out : Option String) (c : Nat) :
    Sim σ ρ :=
  afterSteps d r c (startup d r vcd_out (initSim d r)).2

/-- The value `top.p_ledr.get<int>()` at the start of verification cycle `c`. -/
def ledrAt (d : Design σ δ) (r : Recorder σ δ ρ) (vcd_out : Option String) (c : Nat) : Int :=
  d.ledr (atCycle d r vcd_out c).top.st

/-- The truth value of `top.p_ledg` at the start of verification cycle `c`. -/
def ledgAt (d : Design σ δ) (r : Recorder σ δ ρ) (vcd_out : Option String) (c : Nat) : Bool :=
  d.ledg (atCycle d r vcd_out c).top.st

/-- The level `es[c / cps]` the sequence `es` asks for in cycle `c`. -/
def levelAt (es : List Int) (cps c : Nat) : Int := es.getD (c / cps) 0

/-- The events of `k` verification cycles that all pass both checks, started
in `s`: per cycle the two pin reads and one `step()`. -/
def passLog (d : Design σ δ) (r : Recorder σ δ ρ) : Nat → Sim σ ρ → List Event
  | 0, _ => []
  | k + 1, s =>
      [Event.getLedr (d.ledr s.top.st), Event.getLedg true] ++ (step d r s).1
        ++ passLog d r k (step d r s).2

/-- The two loops of `main` read as one loop over the cycle number `c`, for
`n` more cycles: the check of cycle `c` is against `es[c / cps]` and a mismatch
is reported as `(c / cps, c % cps)`. -/
def flatLoop (d : Design σ δ) (r : Recorder σ δ ρ) (es : List Int) (cps : Nat) :
    Nat → Nat → Frame → Sim σ ρ → List Event × Res σ ρ
  | 0, _, f, s => ([], Res.cont f s)
  | n + 1, c, f, s =>
      let v := d.ledr s.top.st
      if v ≠ levelAt es cps c then
        ([Event.getLedr v, Event.cerrLedr (c / cps) (c % cps)],
          Res.cont { rc := 1, done := true } s)
      else
        let g := d.ledg s.top.st
        if g then
          let r1 := step d r s
          let r2 := flatLoop d r es cps n (c + 1) f r1.2
          ([Event.getLedr v, Event.getLedg g] ++ r1.1 ++ r2.1, r2.2)
        else
          ([Event.getLedr v, Event.getLedg g], Res.abort s)

/-- The events of one `step()` started with counter value `t` and reset pin
`rst`. -/
def stepEvents (t : Nat) (rst : Bool) : List Event :=
  [Event.setClk true, Event.topStep true rst, Event.vcdSample t,
   Event.setClk false, Event.topStep false rst, Event.vcdSample ((t + 1) % U64)]

/-- Cycle `c` passes both checks of the loop body: `ledr` has the expected
level and `ledg` is high. -/
def okAt (d : Design σ δ) (r : Recorder σ δ ρ) (vcd_out : Option String) (cps c : Nat) : Prop :=
  ledrAt d r vcd_out c = levelAt expected cps c ∧ ledgAt d r vcd_out c = true

/-- The events of lines 34-43: registration (if requested) and the reset cycle. -/
def startEvents (vcd_out : Option String) : List Event :=
  (if vcd_out.isSome then [Event.debugInfo "top ", Event.vcdAdd] else [])
    ++ [Event.setRst true] ++ stepEvents 0 true ++ [Event.setRst false]

/-- The events of lines 68-73 for final statics `s`. -/
def endEvents (r : Recorder σ δ ρ) (vcd_out : Option String) (s : Sim σ ρ) : List Event :=
  Event.coutFinished (s.vcd_time >>> 1) ::
    (match vcd_out with
     | some p => [Event.writeFile p (r.buffer s.vcd)]
     | none => [])

/-- The events of a passing verification cycle with reset low: the two pin
reads (with `ledg` high) and the actions of `step()`. -/
def Event.isPassing : Event → Bool
  | Event.getLedr _ => true
  | Event.getLedg b => b
  | Event.setClk _ => true
  | Event.topStep _ rst => !rst
  | Event.vcdSample _ => true
  | _ => false

/-- The number of `step()` calls in a log, counted by the first action of
`step()` (`top.p_clk.set(true)`, which nothing else performs). -/
def stepCalls (l : List Event) : Nat := l.count (Event.setClk true)

/-- The tokens the argument scan looks at, left to right, each with whether a
token follows it; a `--vcd` that has a token after it consumes that token. -/
def scannedTokens : List String → List (String × Bool)
  | [] => []
  | [a] => [(a, false)]
  | a :: p :: rest =>
      (a, true) :: (if a = "--vcd" then scannedTokens rest else scannedTokens (p :: rest))

/-- A scanned token that is not `--vcd`, or is a `--vcd` with no token
following it. -/
def rejected (t : String × Bool) : Bool := decide (t.1 ≠ "--vcd") || !t.2

/-- The argument list `--vcd p_1 --vcd p_2 ... --vcd p_k` for the paths
`p_1 ... p_k`. -/
def vcdPairs : List String → List String
  | [] => []
  | p :: ps => "--vcd" :: p :: vcdPairs ps

/-- Whether an event is a model delta (`top.step()`). -/
def Event.isTopStep : Event → Bool
  | Event.topStep _ _ => true
  | _ => false

/-- The number of model deltas in a log. -/
def modelDeltas (l : List Event) : Nat := l.countP Event.isTopStep

/-- The timestamp of a `vcd.sample` call. -/
def Event.sampleTime : Event → Option Nat
  | Event.vcdSample t => some t
  | _ => none

/-- The timestamps passed to `vcd.sample`, in call order. -/
def sampleTimes (l : List Event) : List Nat := l.filterMap Event.sampleTime

/-- A design whose deltas may depend on something outside the test bench
(a choice `κ` made anew at every delta): the interface of `Design` with that
extra input to `step()`. -/
structure NDesign (κ σ δ : Type) where
  init : σ
  step : κ → Bool → Bool → σ → σ
  ledr : σ → Int
  ledg : σ → Bool
  debug_info : String → δ

/-- The design as it behaves in one run, in which the `k`-th delta since
construction is resolved by the choice `ω k`. -/
def NDesign.resolve {κ σ δ : Type} (nd : NDesign κ σ δ) (ω : Nat → κ) : Design (σ × Nat) δ :=
  { init := (nd.init, 0)
    step := fun clk rst st => (nd.step (ω st.2) clk rst st.1, st.2 + 1)
    ledr := fun st => nd.ledr st.1
    ledg := fun st => nd.ledg st.1
    debug_info := nd.debug_info }

/-- A deterministic design: its deltas do not depend on the choice. -/
def NDesign.deterministic {κ σ δ : Type} (nd : NDesign κ σ δ) : Prop :=
  ∀ k1 k2 clk rst st, nd.step k1 clk rst st = nd.step k2 clk rst st

/-- An event without the content of a written file (the only part of an event
that comes from the recorder). -/
def Event.hideBuffer : Event → Event
  | Event.writeFile p _ => Event.writeFile p ""
  | e => e

/-! ## Concrete designs and recorders -/

/-- A design that counts clock cycles since reset and drives `ledr` and `ledg`
from the cycle number: rising-edge deltas (`clk` high) clear or advance the
counter, falling-edge deltas change nothing. -/
def scripted (lvl : Nat → Int) (inv : Nat → Bool) : Design (Nat × Int × Bool) Unit :=
  { init := (0, lvl 0, inv 0)
    step := fun clk rst st =>
      if clk then (if rst then (0, lvl 0, inv 0) else (st.1 + 1, lvl (st.1 + 1), inv (st.1 + 1)))
      else st
    ledr := fun st => st.2.1
    ledg := fun st => st.2.2
    debug_info := fun _ => () }

/-- The blinker the test bench expects, for `cps` cycles per segment. -/
def golden (cps : Nat) : Design (Nat × Int × Bool) Unit :=
  scripted (fun c => levelAt expected cps c) (fun _ => true)

/-- The expected blinker with one wrong cycle: in cycle `c0` its `ledr` is the
opposite of the expected level. -/
def flipAt (cps c0 : Nat) : Design (Nat × Int × Bool) Unit :=
  scripted (fun c => if c = c0 then 1 - levelAt expected cps c else levelAt expected cps c)
    (fun _ => true)

/-- A design whose `ledr` is always 0 and whose `ledg` is always low. -/
def darkLedg : Design (Nat × Int × Bool) Unit := scripted (fun _ => 0) (fun _ => false)

/-- A design whose `ledr` is always 1 and whose `ledg` is always low. -/
def wrongAndDark : Design (Nat × Int × Bool) Unit := scripted (fun _ => 1) (fun _ => false)

/-- A design read as one that ignores the choice. -/
def ignoring (d : Design (Nat × Int × Bool) Unit) : NDesign Bool (Nat × Int × Bool) Unit :=
  { init := d.init
    step := fun _ clk rst st => d.step clk rst st
    ledr := d.ledr
    ledg := d.ledg
    debug_info := d.debug_info }

/-- A design that is not deterministic: after a rising-edge delta its `ledr`
shows the choice made at that delta. -/
def jitter : NDesign Bool Int Unit :=
  { init := 0
    step := fun k clk _ st => if clk then (if k then 1 else 0) else st
    ledr := fun st => st
    ledg := fun _ => true
    debug_info := fun _ => () }

/-- A recorder, for any design, that writes one `v` per registration and one
`s` per sample. -/
def tallyOn (σ : Type) : Recorder σ Unit String :=
  { init := ""
    add := fun _ b => b ++ "v"
    sample := fun _ _ b => b ++ "s"
    buffer := fun b => b }

/-- A recorder, for any design, that keeps nothing. -/
def mute (σ : Type) : Recorder σ Unit Unit :=
  { init := ()
    add := fun _ _ => ()
    sample := fun _ _ _ => ()
    buffer := fun _ => "" }

/-- A recorder that writes one `v` per registration and one `s` per sample. -/
def tally : Recorder (Nat × Int × Bool) Unit String :=
  { init := ""
    add := fun _ b => b ++ "v"
    sample := fun _ _ b => b ++ "s"
    buffer := fun b => b }

end Niar

/-! ## Shared lemmas -/

namespace Niar

variable {σ δ ρ : Type}

/-- What one `step()` does, written out. -/
theorem step_eq (d : Design σ δ) (r : Recorder σ δ ρ) (s : Sim σ ρ) :
    step d r s =
      (stepEvents s.vcd_time s.top.p_rst,
        { top := { p_clk := false, p_rst := s.top.p_rst,
                   st := d.step false s.top.p_rst (d.step true s.top.p_rst s.top.st) },
          vcd := r.sample ((s.vcd_time + 1) % U64)
                  { p_clk := false, p_rst := s.top.p_rst,
                    st := d.step false s.top.p_rst (d.step true s.top.p_rst s.top.st) }
                  (r.sample s.vcd_time
                    { p_clk := true, p_rst := s.top.p_rst,
                      st := d.step true s.top.p_rst s.top.st } s.vcd),
          vcd_time := ((s.vcd_time + 1) % U64 + 1) % U64 }) := rfl

theorem step_log (d : Design σ δ) (r : Recorder σ δ ρ) (s : Sim σ ρ) :
    (step d r s).1 = stepEvents s.vcd_time s.top.p_rst := rfl

theorem step_rst (d : Design σ δ) (r : Recorder σ δ ρ) (s : Sim σ ρ) :
    (step d r s).2.top.p_rst = s.top.p_rst := rfl

theorem step_clk (d : Design σ δ) (r : Recorder σ δ ρ) (s : Sim σ ρ) :
    (step d r s).2.top.p_clk = false := rfl

theorem step_time (d : Design σ δ) (r : Recorder σ δ ρ) (s : Sim σ ρ) :
    (step d r s).2.vcd_time = (s.vcd_time + 2) % U64 := by
  rw [step_eq]
  simp only [U64]
  omega

theorem afterSteps_succ (d : Design σ δ) (r : Recorder σ δ ρ) (c : Nat) (s : Sim σ ρ) :
    afterSteps d r (c + 1) s = (step d r (afterSteps d r c s)).2 := by
  induction c generalizing s with
  | zero => rfl
  | succ c ih =>
      show afterSteps d r (c + 1) (step d r s).2 = _
      rw [ih]
      rfl

theorem afterSteps_rst (d : Design σ δ) (r : Recorder σ δ ρ) (c : Nat) (s : Sim σ ρ) :
    (afterSteps d r c s).top.p_rst = s.top.p_rst := by
  induction c generalizing s with
  | zero => rfl
  | succ c ih =>
      show (afterSteps d r c (step d r s).2).top.p_rst = _
      rw [ih, step_rst]

theorem afterSteps_time (d : Design σ δ) (r : Recorder σ δ ρ) (c : Nat) (s : Sim σ ρ) :
    (afterSteps d r c s).vcd_time = (s.vcd_time + 2 * c) % U64 ∨
      (c = 0 ∧ (afterSteps d r c s).vcd_time = s.vcd_time) := by
  induction c generalizing s with
  | zero => exact Or.inr ⟨rfl, rfl⟩
  | succ c ih =>
      left
      show (afterSteps d r c (step d r s).2).vcd_time = _
      rcases ih (step d r s).2 with h | ⟨h0, h⟩
      · rw [h, step_time]
        simp only [U64]
        omega
      · rw [h, step_time, h0]

/-- Without wrap-around of the 64-bit counter, `c` calls of `step()` add `2 * c`. -/
theorem afterSteps_time_exact (d : Design σ δ) (r : Recorder σ δ ρ) (c : Nat) (s : Sim σ ρ)
    (h : s.vcd_time + 2 * c < U64) :
    (afterSteps d r c s).vcd_time = s.vcd_time + 2 * c := by
  rcases afterSteps_time d r c s with h1 | ⟨h0, h1⟩
  · rw [h1, Nat.mod_eq_of_lt h]
  · rw [h1, h0]
    rfl

/-! ### The nested loops are one loop over the cycle number -/

theorem innerLoop_flat (d : Design σ δ) (r : Recorder σ δ ρ) (es : List Int) (cps : Nat)
    (e : Int) (i m : Nat) (he : es.getD i 0 = e) :
    ∀ (n j : Nat) (f : Frame) (s : Sim σ ρ), j + n = cps → f.done = false →
      flatLoop d r es cps (n + m) (i * cps + j) f s =
        match innerLoop d r e i n j f s with
        | (l, Res.abort s1) => (l, Res.abort s1)
        | (l, Res.cont f1 s1) =>
            if f1.done then (l, Res.cont f1 s1)
            else (l ++ (flatLoop d r es cps m ((i + 1) * cps) f1 s1).1,
                  (flatLoop d r es cps m ((i + 1) * cps) f1 s1).2) := by
  intro n
  induction n with
  | zero =>
      intro j f s hj hf
      have hj2 : j = cps := by omega
      subst hj2
      simp only [innerLoop, hf, Nat.zero_add, Bool.false_eq_true, if_false, List.nil_append]
      rw [Nat.add_mul, Nat.one_mul]
  | succ n ih =>
      intro j f s hj hf
      have hlt : j < cps := by omega
      have hpos : 0 < cps := by omega
      have hdiv : (i * cps + j) / cps = i := by
        rw [Nat.add_comm, Nat.add_mul_div_right _ _ hpos, Nat.div_eq_of_lt hlt, Nat.zero_add]
      have hmod : (i * cps + j) % cps = j := by
        rw [Nat.add_comm, Nat.add_mul_mod_self_right, Nat.mod_eq_of_lt hlt]
      have hlev : levelAt es cps (i * cps + j) = e := by
        unfold levelAt
        rw [hdiv, he]
      have hsucc : n + 1 + m = (n + m) + 1 := by omega
      rw [hsucc]
      simp only [flatLoop, innerLoop, hlev, hdiv, hmod]
      by_cases hv : d.ledr s.top.st = e
      · by_cases hg : d.ledg s.top.st = true
        · have h := ih (j + 1) f (step d r s).2 (by omega) hf
          rw [← Nat.add_assoc] at h
          simp only [hv, hg, ne_eq, not_true_eq_false, if_false, if_true, h]
          cases hres : innerLoop d r e i n (j + 1) f (step d r s).2 with
          | mk l res =>
              cases res with
              | abort s1 => simp
              | cont f1 s1 =>
                  by_cases hd : f1.done = true
                  · simp [hd]
                  · simp [hd]
        · simp [hv, hg]
      · simp [hv]

theorem outerLoop_done (d : Design σ δ) (r : Recorder σ δ ρ) (cps : Nat) (rest : List Int)
    (i : Nat) (f : Frame) (s : Sim σ ρ) (hf : f.done = true) :
    outerLoop d r cps rest i f s = ([], Res.cont f s) := by
  cases rest with
  | nil => rfl
  | cons e rest => simp [outerLoop, hf]

theorem outerLoop_flat (d : Design σ δ) (r : Recorder σ δ ρ) (es : List Int) (cps : Nat) :
    ∀ (rest : List Int) (i : Nat) (f : Frame) (s : Sim σ ρ),
      (∀ k, k < rest.length → es.getD (i + k) 0 = rest.getD k 0) → f.done = false →
      outerLoop d r cps rest i f s = flatLoop d r es cps (rest.length * cps) (i * cps) f s := by
  intro rest
  induction rest with
  | nil =>
      intro i f s _ _
      simp [outerLoop, flatLoop]
  | cons e rest ih =>
      intro i f s hes hf
      have he : es.getD i 0 = e := by
        have h := hes 0 (by simp)
        simpa using h
      have hlen : (e :: rest).length * cps = cps + rest.length * cps := by
        simp only [List.length_cons, Nat.add_mul, Nat.one_mul]
        omega
      have hfl := innerLoop_flat d r es cps e i (rest.length * cps) he cps 0 f s (by omega) hf
      rw [Nat.add_zero] at hfl
      rw [hlen, hfl]
      simp only [outerLoop, hf, Bool.false_eq_true, if_false]
      cases hres : innerLoop d r e i cps 0 f s with
      | mk l res =>
          cases res with
          | abort s1 => rfl
          | cont f1 s1 =>
              by_cases hd : f1.done = true
              · simp [hd, outerLoop_done d r cps rest (i + 1) f1 s1 hd]
              · have hd2 : f1.done = false := by simpa using hd
                have hes2 : ∀ k, k < rest.length → es.getD (i + 1 + k) 0 = rest.getD k 0 := by
                  intro k hk
                  have h := hes (k + 1) (by simp; omega)
                  have e1 : i + 1 + k = i + (k + 1) := by omega
                  rw [e1, h]
                  simp
                simp [hd2, ih (i + 1) f1 s1 hes2 hd2]

/-- The loops of `main` are the flat loop over `8 * cps` cycles. -/
theorem verify_flat (d : Design σ δ) (r : Recorder σ δ ρ) (cps : Nat) (s : Sim σ ρ) :
    outerLoop d r cps expected 0 { rc := 0, done := false } s =
      flatLoop d r expected cps (8 * cps) 0 { rc := 0, done := false } s := by
  have h := outerLoop_flat d r expected cps expected 0 { rc := 0, done := false } s
    (by intro k _; rw [Nat.zero_add]) rfl
  rw [h, Nat.zero_mul]
  rfl

/-! ### The three ways the flat loop ends -/

theorem flatLoop_pass (d : Design σ δ) (r : Recorder σ δ ρ) (es : List Int) (cps : Nat)
    (f : Frame) :
    ∀ (n c : Nat) (s : Sim σ ρ),
      (∀ k, k < n → d.ledr (afterSteps d r k s).top.st = levelAt es cps (c + k) ∧
                    d.ledg (afterSteps d r k s).top.st = true) →
      flatLoop d r es cps n c f s = (passLog d r n s, Res.cont f (afterSteps d r n s)) := by
  intro n
  induction n with
  | zero =>
      intro c s _
      rfl
  | succ n ih =>
      intro c s h
      have h0 := h 0 (by omega)
      simp only [afterSteps, Nat.add_zero] at h0
      have hn : ∀ k, k < n → d.ledr (afterSteps d r k (step d r s).2).top.st
            = levelAt es cps (c + 1 + k) ∧
          d.ledg (afterSteps d r k (step d r s).2).top.st = true := by
        intro k hk
        have h1 := h (k + 1) (by omega)
        have e1 : c + (k + 1) = c + 1 + k := by omega
        rw [e1] at h1
        exact h1
      simp only [flatLoop, passLog, afterSteps, h0.1, h0.2, ne_eq, not_true_eq_false, if_false,
        if_true, ih (c + 1) (step d r s).2 hn]

theorem flatLoop_fail (d : Design σ δ) (r : Recorder σ δ ρ) (es : List Int) (cps : Nat)
    (f : Frame) :
    ∀ (k n c : Nat) (s : Sim σ ρ), k < n →
      (∀ k1, k1 < k → d.ledr (afterSteps d r k1 s).top.st = levelAt es cps (c + k1) ∧
                    d.ledg (afterSteps d r k1 s).top.st = true) →
      d.ledr (afterSteps d r k s).top.st ≠ levelAt es cps (c + k) →
      flatLoop d r es cps n c f s =
        (passLog d r k s ++ [Event.getLedr (d.ledr (afterSteps d r k s).top.st),
            Event.cerrLedr ((c + k) / cps) ((c + k) % cps)],
          Res.cont { rc := 1, done := true } (afterSteps d r k s)) := by
  intro k
  induction k with
  | zero =>
      intro n c s hn _ hbad
      obtain ⟨n, rfl⟩ : ∃ n1, n = n1 + 1 := ⟨n - 1, by omega⟩
      simp only [afterSteps, Nat.add_zero] at hbad
      simp [flatLoop, passLog, afterSteps, hbad]
  | succ k ih =>
      intro n c s hn h hbad
      obtain ⟨n, rfl⟩ : ∃ n1, n = n1 + 1 := ⟨n - 1, by omega⟩
      have h0 := h 0 (by omega)
      simp only [afterSteps, Nat.add_zero] at h0
      have hk : ∀ k1, k1 < k → d.ledr (afterSteps d r k1 (step d r s).2).top.st
            = levelAt es cps (c + 1 + k1) ∧
          d.ledg (afterSteps d r k1 (step d r s).2).top.st = true := by
        intro k1 hk1
        have h1 := h (k1 + 1) (by omega)
        have e1 : c + (k1 + 1) = c + 1 + k1 := by omega
        rw [e1] at h1
        exact h1
      have e2 : c + (k + 1) = c + 1 + k := by omega
      rw [e2] at hbad
      have hrec := ih n (c + 1) (step d r s).2 (by omega) hk hbad
      simp only [flatLoop, passLog, afterSteps, h0.1, h0.2, ne_eq, not_true_eq_false, if_false,
        if_true, hrec, e2, List.append_assoc]

theorem flatLoop_abort (d : Design σ δ) (r : Recorder σ δ ρ) (es : List Int) (cps : Nat)
    (f : Frame) :
    ∀ (k n c : Nat) (s : Sim σ ρ), k < n →
      (∀ k1, k1 < k → d.ledr (afterSteps d r k1 s).top.st = levelAt es cps (c + k1) ∧
                    d.ledg (afterSteps d r k1 s).top.st = true) →
      d.ledr (afterSteps d r k s).top.st = levelAt es cps (c + k) →
      d.ledg (afterSteps d r k s).top.st = false →
      flatLoop d r es cps n c f s =
        (passLog d r k s ++ [Event.getLedr (d.ledr (afterSteps d r k s).top.st),
            Event.getLedg false],
          Res.abort (afterSteps d r k s)) := by
  intro k
  induction k with
  | zero =>
      intro n c s hn _ hok hg
      obtain ⟨n, rfl⟩ : ∃ n1, n = n1 + 1 := ⟨n - 1, by omega⟩
      simp only [afterSteps, Nat.add_zero] at hok hg
      simp [flatLoop, passLog, afterSteps, hok, hg]
  | succ k ih =>
      intro n c s hn h hok hg
      obtain ⟨n, rfl⟩ : ∃ n1, n = n1 + 1 := ⟨n - 1, by omega⟩
      have h0 := h 0 (by omega)
      simp only [afterSteps, Nat.add_zero] at h0
      have hk : ∀ k1, k1 < k → d.ledr (afterSteps d r k1 (step d r s).2).top.st
            = levelAt es cps (c + 1 + k1) ∧
          d.ledg (afterSteps d r k1 (step d r s).2).top.st = true := by
        intro k1 hk1
        have h1 := h (k1 + 1) (by omega)
        have e1 : c + (k1 + 1) = c + 1 + k1 := by omega
        rw [e1] at h1
        exact h1
      have e2 : c + (k + 1) = c + 1 + k := by omega
      rw [e2] at hok
      have hrec := ih n (c + 1) (step d r s).2 (by omega) hk hok hg
      simp only [flatLoop, passLog, afterSteps, h0.1, h0.2, ne_eq, not_true_eq_false, if_false,
        if_true, hrec, List.append_assoc]

/-! ### The run as a whole -/

theorem startup_log (d : Design σ δ) (r : Recorder σ δ ρ) (vo : Option String) :
    (startup d r vo (initSim d r)).1 = startEvents vo := by
  cases vo <;> rfl

theorem startup_top (d : Design σ δ) (r : Recorder σ δ ρ) (vo : Option String) :
    (startup d r vo (initSim d r)).2.top =
      { p_clk := false, p_rst := false, st := d.step false true (d.step true true d.init) } := by
  cases vo <;> rfl

theorem startup_time (d : Design σ δ) (r : Recorder σ δ ρ) (vo : Option String) :
    (startup d r vo (initSim d r)).2.vcd_time = 2 := by
  cases vo <;> rfl

theorem startup_vcd (d : Design σ δ) (r : Recorder σ δ ρ) (vo : Option String) :
    (startup d r vo (initSim d r)).2.vcd =
      r.sample 1 { p_clk := false, p_rst := true, st := d.step false true (d.step true true d.init) }
        (r.sample 0 { p_clk := true, p_rst := true, st := d.step true true d.init }
          (if vo.isSome then r.add (d.debug_info "top ") r.init else r.init)) := by
  cases vo <;> rfl

theorem finish_status (r : Recorder σ δ ρ) (vo : Option String) (l : List Event) (f : Frame)
    (s : Sim σ ρ) : (finish r vo l f s).status = Status.exit f.rc := rfl

theorem finish_final (r : Recorder σ δ ρ) (vo : Option String) (l : List Event) (f : Frame)
    (s : Sim σ ρ) : (finish r vo l f s).final = s := rfl

theorem finish_log (r : Recorder σ δ ρ) (vo : Option String) (l : List Event) (f : Frame)
    (s : Sim σ ρ) : (finish r vo l f s).log = l ++ endEvents r vo s := by
  cases vo <;> simp [finish, endEvents]

theorem atCycle_rst (d : Design σ δ) (r : Recorder σ δ ρ) (vo : Option String) (c : Nat) :
    (atCycle d r vo c).top.p_rst = false := by
  unfold atCycle
  rw [afterSteps_rst, startup_top]

theorem atCycle_time (d : Design σ δ) (r : Recorder σ δ ρ) (vo : Option String) (c : Nat)
    (h : 2 + 2 * c < U64) : (atCycle d r vo c).vcd_time = 2 + 2 * c := by
  unfold atCycle
  rw [afterSteps_time_exact d r c _ (by rw [startup_time]; exact h), startup_time]

/-- Every accepted run ends in one of three ways: all `8 * cps` cycles pass;
or there is a first cycle that does not pass, and there either `ledr` is wrong
(reported, status 1) or `ledr` is right and `ledg` is low (assertion). -/
theorem main_cases (d : Design σ δ) (r : Recorder σ δ ρ) (CLOCK_HZ : Int) (args : List String)
    (vo : Option String) (hargs : parseArgs args none = Except.ok vo) :
    ((∀ c, c < 8 * cyclesPerSegment CLOCK_HZ → okAt d r vo (cyclesPerSegment CLOCK_HZ) c) ∧
      main d r CLOCK_HZ args =
        finish r vo (startEvents vo ++ passLog d r (8 * cyclesPerSegment CLOCK_HZ) (atCycle d r vo 0))
          { rc := 0, done := false } (atCycle d r vo (8 * cyclesPerSegment CLOCK_HZ))) ∨
    (∃ c, c < 8 * cyclesPerSegment CLOCK_HZ ∧
      (∀ c1, c1 < c → okAt d r vo (cyclesPerSegment CLOCK_HZ) c1) ∧
      ledrAt d r vo c ≠ levelAt expected (cyclesPerSegment CLOCK_HZ) c ∧
      main d r CLOCK_HZ args =
        finish r vo (startEvents vo ++ (passLog d r c (atCycle d r vo 0) ++
            [Event.getLedr (ledrAt d r vo c),
             Event.cerrLedr (c / cyclesPerSegment CLOCK_HZ) (c % cyclesPerSegment CLOCK_HZ)]))
          { rc := 1, done := true } (atCycle d r vo c)) ∨
    (∃ c, c < 8 * cyclesPerSegment CLOCK_HZ ∧
      (∀ c1, c1 < c → okAt d r vo (cyclesPerSegment CLOCK_HZ) c1) ∧
      ledrAt d r vo c = levelAt expected (cyclesPerSegment CLOCK_HZ) c ∧
      ledgAt d r vo c = false ∧
      main d r CLOCK_HZ args =
        { status := Status.assertFailed,
          log := startEvents vo ++ (passLog d r c (atCycle d r vo 0) ++
            [Event.getLedr (ledrAt d r vo c), Event.getLedg false]),
          final := atCycle d r vo c }) := by
  have hmain : main d r CLOCK_HZ args =
      match flatLoop d r expected (cyclesPerSegment CLOCK_HZ) (8 * cyclesPerSegment CLOCK_HZ) 0
          { rc := 0, done := false } (atCycle d r vo 0) with
      | (l, Res.abort s) =>
          { status := Status.assertFailed, log := startEvents vo ++ l, final := s }
      | (l, Res.cont f s) => finish r vo (startEvents vo ++ l) f s := by
    simp only [main, hargs, verify_flat, startup_log]
    rfl
  by_cases hall : ∀ c, c < 8 * cyclesPerSegment CLOCK_HZ →
      okAt d r vo (cyclesPerSegment CLOCK_HZ) c
  · left
    refine ⟨hall, ?_⟩
    have h := flatLoop_pass d r expected (cyclesPerSegment CLOCK_HZ) { rc := 0, done := false }
      (8 * cyclesPerSegment CLOCK_HZ) 0 (atCycle d r vo 0)
      (by intro k hk; rw [Nat.zero_add]; exact hall k hk)
    rw [hmain, h]
    rfl
  · right
    have hex : ∃ c, c < 8 * cyclesPerSegment CLOCK_HZ ∧
        ¬ okAt d r vo (cyclesPerSegment CLOCK_HZ) c := by
      by_contra hne
      apply hall
      intro c hc
      by_contra hno
      exact hne ⟨c, hc, hno⟩
    classical
    have hc := Nat.find_spec hex
    have hmin : ∀ c1, c1 < Nat.find hex → okAt d r vo (cyclesPerSegment CLOCK_HZ) c1 := by
      intro c1 h1
      by_contra hno
      exact Nat.find_min hex h1 ⟨by omega, hno⟩
    have hmin2 : ∀ k1, k1 < Nat.find hex →
        d.ledr (afterSteps d r k1 (atCycle d r vo 0)).top.st
            = levelAt expected (cyclesPerSegment CLOCK_HZ) (0 + k1) ∧
          d.ledg (afterSteps d r k1 (atCycle d r vo 0)).top.st = true := by
      intro k1 h1
      rw [Nat.zero_add]
      exact hmin k1 h1
    by_cases hr : ledrAt d r vo (Nat.find hex)
        = levelAt expected (cyclesPerSegment CLOCK_HZ) (Nat.find hex)
    · right
      have hg : ledgAt d r vo (Nat.find hex) = false := by
        cases hgv : ledgAt d r vo (Nat.find hex) with
        | false => rfl
        | true => exact absurd ⟨hr, hgv⟩ hc.2
      refine ⟨Nat.find hex, hc.1, hmin, hr, hg, ?_⟩
      have h := flatLoop_abort d r expected (cyclesPerSegment CLOCK_HZ) { rc := 0, done := false }
        (Nat.find hex) (8 * cyclesPerSegment CLOCK_HZ) 0 (atCycle d r vo 0) hc.1 hmin2
        (by rw [Nat.zero_add]; exact hr) hg
      rw [hmain, h]
      rfl
    · left
      refine ⟨Nat.find hex, hc.1, hmin, hr, ?_⟩
      have h := flatLoop_fail d r expected (cyclesPerSegment CLOCK_HZ) { rc := 0, done := false }
        (Nat.find hex) (8 * cyclesPerSegment CLOCK_HZ) 0 (atCycle d r vo 0) hc.1 hmin2
        (by rw [Nat.zero_add]; exact hr)
      rw [hmain, h]
      simp only [Nat.zero_add]
      rfl

/-! ### Facts about the events of passing cycles -/

theorem passLog_isPassing (d : Design σ δ) (r : Recorder σ δ ρ) :
    ∀ (n : Nat) (s : Sim σ ρ), s.top.p_rst = false →
      ∀ e, e ∈ passLog d r n s → e.isPassing = true := by
  intro n
  induction n with
  | zero =>
      intro s _ e he
      simp [passLog] at he
  | succ n ih =>
      intro s hs e he
      simp only [passLog, step_log, stepEvents, hs, List.mem_append, List.mem_cons,
        List.mem_singleton, List.not_mem_nil, or_false] at he
      rcases he with (h | h) | h
      · rcases h with h | h <;> subst h <;> rfl
      · rcases h with h | h | h | h | h | h <;> subst h <;> rfl
      · exact ih (step d r s).2 (by rw [step_rst, hs]) e h

theorem passLog_stepCalls (d : Design σ δ) (r : Recorder σ δ ρ) :
    ∀ (n : Nat) (s : Sim σ ρ), stepCalls (passLog d r n s) = n := by
  intro n
  induction n with
  | zero =>
      intro s
      rfl
  | succ n ih =>
      intro s
      have h := ih (step d r s).2
      unfold stepCalls at h ⊢
      simp only [passLog, step_log, stepEvents, List.count_append, List.count_cons,
        List.count_nil, h]
      simp
      omega

theorem passLog_asserts (d : Design σ δ) (r : Recorder σ δ ρ) :
    ∀ (n : Nat) (s : Sim σ ρ), (passLog d r n s).count (Event.getLedg true) = n := by
  intro n
  induction n with
  | zero =>
      intro s
      rfl
  | succ n ih =>
      intro s
      simp only [passLog, step_log, stepEvents, List.count_append, List.count_cons,
        List.count_nil, ih (step d r s).2]
      simp
      omega

theorem startEvents_stepCalls (vo : Option String) : stepCalls (startEvents vo) = 1 := by
  cases vo <;> rfl

theorem cerrLedr_not_mem_startEvents (vo : Option String) (i j : Nat) :
    Event.cerrLedr i j ∉ startEvents vo := by
  cases vo <;> simp [startEvents, stepEvents]

theorem cerrLedr_not_mem_endEvents (r : Recorder σ δ ρ) (vo : Option String) (s : Sim σ ρ)
    (i j : Nat) : Event.cerrLedr i j ∉ endEvents r vo s := by
  cases vo <;> simp [endEvents]

theorem cerrLedr_not_mem_passLog (d : Design σ δ) (r : Recorder σ δ ρ) (n : Nat)
    (s : Sim σ ρ) (hs : s.top.p_rst = false) (i j : Nat) :
    Event.cerrLedr i j ∉ passLog d r n s := by
  intro h
  have := passLog_isPassing d r n s hs _ h
  simp [Event.isPassing] at this

/-- The shape of every accepted run: the start-up events, then `c` passing
cycles, then one of three endings. -/
theorem main_shape (d : Design σ δ) (r : Recorder σ δ ρ) (CLOCK_HZ : Int) (args : List String)
    (vo : Option String) (hargs : parseArgs args none = Except.ok vo) :
    ∃ c tail, c ≤ 8 * cyclesPerSegment CLOCK_HZ ∧
      (main d r CLOCK_HZ args).log = startEvents vo ++ passLog d r c (atCycle d r vo 0) ++ tail ∧
      (main d r CLOCK_HZ args).final = atCycle d r vo c ∧
      (((main d r CLOCK_HZ args).status = Status.exit 0 ∧
          tail = endEvents r vo (atCycle d r vo c)) ∨
        ((main d r CLOCK_HZ args).status = Status.exit 1 ∧
          ∃ v i j, tail = [Event.getLedr v, Event.cerrLedr i j] ++
            endEvents r vo (atCycle d r vo c)) ∨
        ((main d r CLOCK_HZ args).status = Status.assertFailed ∧
          ∃ v, tail = [Event.getLedr v, Event.getLedg false])) := by
  rcases main_cases d r CLOCK_HZ args vo hargs with
    ⟨_, hm⟩ | ⟨c0, hc0, _, _, hm⟩ | ⟨c0, hc0, _, _, _, hm⟩
  · refine ⟨8 * cyclesPerSegment CLOCK_HZ, endEvents r vo (atCycle d r vo _), le_refl _, ?_, ?_,
      Or.inl ⟨?_, rfl⟩⟩
    · rw [hm, finish_log]
    · rw [hm, finish_final]
    · rw [hm, finish_status]
  · refine ⟨c0, [Event.getLedr (ledrAt d r vo c0),
          Event.cerrLedr (c0 / cyclesPerSegment CLOCK_HZ) (c0 % cyclesPerSegment CLOCK_HZ)] ++
        endEvents r vo (atCycle d r vo c0), le_of_lt hc0, ?_, ?_,
      Or.inr (Or.inl ⟨?_, _, _, _, rfl⟩)⟩
    · rw [hm, finish_log]
      simp only [List.append_assoc]
    · rw [hm, finish_final]
    · rw [hm, finish_status]
  · refine ⟨c0, [Event.getLedr (ledrAt d r vo c0), Event.getLedg false], le_of_lt hc0, ?_, ?_,
      Or.inr (Or.inr ⟨?_, _, rfl⟩)⟩
    · rw [hm]
      simp only [List.append_assoc]
    · rw [hm]
    · rw [hm]

theorem passLog_mem_cases (d : Design σ δ) (r : Recorder σ δ ρ) (n : Nat) (s : Sim σ ρ)
    (hs : s.top.p_rst = false) (e : Event) (he : e ∈ passLog d r n s) :
    (∃ v, e = Event.getLedr v) ∨ e = Event.getLedg true ∨ (∃ b, e = Event.setClk b) ∨
      (∃ clk, e = Event.topStep clk false) ∨ (∃ t, e = Event.vcdSample t) := by
  have h := passLog_isPassing d r n s hs e he
  cases e <;> simp_all [Event.isPassing]

theorem stepCalls_append (a b : List Event) : stepCalls (a ++ b) = stepCalls a + stepCalls b := by
  simp [stepCalls]

theorem endEvents_stepCalls (r : Recorder σ δ ρ) (vo : Option String) (s : Sim σ ρ) :
    stepCalls (endEvents r vo s) = 0 := by
  cases vo <;> simp [stepCalls, endEvents]

theorem coutFinished_mem_endEvents (r : Recorder σ δ ρ) (vo : Option String) (s : Sim σ ρ)
    (n : Nat) : Event.coutFinished n ∈ endEvents r vo s ↔ n = s.vcd_time / 2 := by
  cases vo <;> simp [endEvents, Nat.shiftRight_eq_div_pow]

theorem coutFinished_not_mem_startEvents (vo : Option String) (n : Nat) :
    Event.coutFinished n ∉ startEvents vo := by
  cases vo <;> simp [startEvents, stepEvents]

theorem coutFinished_not_mem_passLog (d : Design σ δ) (r : Recorder σ δ ρ) (k : Nat)
    (s : Sim σ ρ) (hs : s.top.p_rst = false) (n : Nat) :
    Event.coutFinished n ∉ passLog d r k s := by
  intro h
  have := passLog_isPassing d r k s hs _ h
  simp [Event.isPassing] at this

theorem scripted_afterSteps (lvl : Nat → Int) (inv : Nat → Bool)
    (r : Recorder (Nat × Int × Bool) Unit ρ) :
    ∀ (c n : Nat) (s : Sim (Nat × Int × Bool) ρ), s.top.p_rst = false →
      s.top.st = (n, lvl n, inv n) →
      (afterSteps (scripted lvl inv) r c s).top.st = (n + c, lvl (n + c), inv (n + c)) := by
  intro c
  induction c with
  | zero =>
      intro n s _ hst
      exact hst
  | succ c ih =>
      intro n s hrst hst
      have h := ih (n + 1) (step (scripted lvl inv) r s).2 (by rw [step_rst, hrst])
        (by rw [step_eq]; simp [scripted, hrst, hst])
      have e1 : n + 1 + c = n + (c + 1) := by omega
      rw [e1] at h
      exact h

/-- A scripted design shows `lvl c` and `inv c` at the start of verification
cycle `c`. -/
theorem scripted_atCycle (lvl : Nat → Int) (inv : Nat → Bool)
    (r : Recorder (Nat × Int × Bool) Unit ρ) (vo : Option String) (c : Nat) :
    (atCycle (scripted lvl inv) r vo c).top.st = (c, lvl c, inv c) := by
  have h := scripted_afterSteps lvl inv r c 0
    (startup (scripted lvl inv) r vo (initSim (scripted lvl inv) r)).2
    (by rw [startup_top]) (by rw [startup_top]; rfl)
  rw [Nat.zero_add] at h
  exact h

theorem golden_okAt (cps : Nat) (r : Recorder (Nat × Int × Bool) Unit ρ) (vo : Option String)
    (c : Nat) : okAt (golden cps) r vo cps c := by
  unfold okAt ledrAt ledgAt golden
  rw [scripted_atCycle]
  exact ⟨rfl, rfl⟩

theorem flipAt_ledrAt (cps c0 : Nat) (r : Recorder (Nat × Int × Bool) Unit ρ)
    (vo : Option String) (c : Nat) :
    ledrAt (flipAt cps c0) r vo c =
      if c = c0 then 1 - levelAt expected cps c else levelAt expected cps c := by
  unfold ledrAt flipAt
  rw [scripted_atCycle]
  rfl

theorem flipAt_ledgAt (cps c0 : Nat) (r : Recorder (Nat × Int × Bool) Unit ρ)
    (vo : Option String) (c : Nat) : ledgAt (flipAt cps c0) r vo c = true := by
  unfold ledgAt flipAt
  rw [scripted_atCycle]
  rfl

theorem parseArgs_scan : ∀ (args : List String) (vo : Option String),
    match parseArgs args vo with
    | Except.error a =>
        ∃ t, (scannedTokens args).find? rejected = some t ∧ t.1 = a
    | Except.ok _ => ∀ t, t ∈ scannedTokens args → rejected t = false := by
  intro args
  induction args using scannedTokens.induct with
  | case1 =>
      intro vo t ht
      simp [scannedTokens] at ht
  | case2 a =>
      intro vo
      by_cases ha : a = "--vcd"
      · simp [parseArgs, scannedTokens, rejected, ha]
      · simp [parseArgs, scannedTokens, rejected, ha]
  | case3 a p rest ih _ =>
      intro vo
      by_cases ha : a = "--vcd"
      · have h := ih (some p)
        simp only [parseArgs, ha, if_true]
        cases hp : parseArgs rest (some p) with
        | error b =>
            rw [hp] at h
            obtain ⟨t, ht, htb⟩ := h
            refine ⟨t, ?_, htb⟩
            simp [scannedTokens, rejected, List.find?_cons]
            exact ht
        | ok v =>
            rw [hp] at h
            intro t ht
            simp only [scannedTokens, if_true, List.mem_cons] at ht
            rcases ht with h1 | h1
            · subst h1
              simp [rejected]
            · exact h t h1
      · simp [parseArgs, scannedTokens, rejected, ha, List.find?_cons]

theorem main_rejected (d : Design σ δ) (r : Recorder σ δ ρ) (CLOCK_HZ : Int) (args : List String)
    (a : String) (h : parseArgs args none = Except.error a) :
    main d r CLOCK_HZ args =
      { status := Status.exit 2, log := [Event.cerrUnknownArg a], final := initSim d r } := by
  simp only [main, h]

theorem main_status_cases (d : Design σ δ) (r : Recorder σ δ ρ) (CLOCK_HZ : Int)
    (args : List String) (vo : Option String) (hargs : parseArgs args none = Except.ok vo) :
    (main d r CLOCK_HZ args).status = Status.exit 0 ∨
      (main d r CLOCK_HZ args).status = Status.exit 1 ∨
      (main d r CLOCK_HZ args).status = Status.assertFailed := by
  obtain ⟨c, tail, _, _, _, h⟩ := main_shape d r CLOCK_HZ args vo hargs
  rcases h with ⟨h, _⟩ | ⟨h, _⟩ | ⟨h, _⟩
  · exact Or.inl h
  · exact Or.inr (Or.inl h)
  · exact Or.inr (Or.inr h)

theorem writeFile_not_mem_startEvents (vo : Option String) (q b : String) :
    Event.writeFile q b ∉ startEvents vo := by
  cases vo <;> simp [startEvents, stepEvents]

theorem writeFile_not_mem_passLog (d : Design σ δ) (r : Recorder σ δ ρ) (k : Nat)
    (s : Sim σ ρ) (hs : s.top.p_rst = false) (q b : String) :
    Event.writeFile q b ∉ passLog d r k s := by
  intro h
  have := passLog_isPassing d r k s hs _ h
  simp [Event.isPassing] at this

theorem getLedg_false_not_mem_passLog (d : Design σ δ) (r : Recorder σ δ ρ) (k : Nat)
    (s : Sim σ ρ) (hs : s.top.p_rst = false) :
    Event.getLedg false ∉ passLog d r k s := by
  intro h
  have := passLog_isPassing d r k s hs _ h
  simp [Event.isPassing] at this

theorem startEvents_asserts (vo : Option String) (b : Bool) :
    (startEvents vo).count (Event.getLedg b) = 0 := by
  cases vo <;> simp [startEvents, stepEvents]

theorem endEvents_asserts (r : Recorder σ δ ρ) (vo : Option String) (s : Sim σ ρ) (b : Bool) :
    (endEvents r vo s).count (Event.getLedg b) = 0 := by
  cases vo <;> simp [endEvents]

/-! ## The claims -/

/-- C1. For a design whose `ledg` is high at every cycle the loop checks it
(every cycle up to which `ledr` has matched), `main` returns 1 exactly when
some cycle `c < 8 * cps` has `ledr`, read after the reset cycle and `c` further
`step()` calls, different from `expected[c / cps]`; the report is for the least
such `c`, as `i = c / cps`, `j = c % cps`, the read that fails directly follows
`c` passing cycles, and no other report is made; without such a cycle `main`
returns 0.  (`CLOCK_HZ / 4` fits the `int` loop counter `j`, so the reported
`i` is below 8 and the reported `j` is a non-negative `int` below `cps`.) -/
theorem main_returns_one_iff_mismatch (d : Design σ δ) (r : Recorder σ δ ρ) (CLOCK_HZ : Int)
    (args : List String) (vo : Option String)
    (hargs : parseArgs args none = Except.ok vo)
    (hint : cyclesPerSegment CLOCK_HZ < 2 ^ 31)
    (hledg : ∀ c, c < 8 * cyclesPerSegment CLOCK_HZ →
      (∀ c1, c1 ≤ c → ledrAt d r vo c1 = levelAt expected (cyclesPerSegment CLOCK_HZ) c1) →
      ledgAt d r vo c = true) :
    ((main d r CLOCK_HZ args).status = Status.exit 1 ↔
      ∃ c, c < 8 * cyclesPerSegment CLOCK_HZ ∧
        ledrAt d r vo c ≠ levelAt expected (cyclesPerSegment CLOCK_HZ) c) ∧
    (∀ c, c < 8 * cyclesPerSegment CLOCK_HZ →
      ledrAt d r vo c ≠ levelAt expected (cyclesPerSegment CLOCK_HZ) c →
      (∀ c1, c1 < c → ledrAt d r vo c1 = levelAt expected (cyclesPerSegment CLOCK_HZ) c1) →
      (main d r CLOCK_HZ args).log =
          startEvents vo ++ passLog d r c (atCycle d r vo 0) ++
            [Event.getLedr (ledrAt d r vo c),
             Event.cerrLedr (c / cyclesPerSegment CLOCK_HZ) (c % cyclesPerSegment CLOCK_HZ)] ++
            endEvents r vo (atCycle d r vo c) ∧
        (∀ i j, Event.cerrLedr i j ∈ (main d r CLOCK_HZ args).log ↔
          (i = c / cyclesPerSegment CLOCK_HZ ∧ j = c % cyclesPerSegment CLOCK_HZ)) ∧
        c / cyclesPerSegment CLOCK_HZ < 8 ∧
        c % cyclesPerSegment CLOCK_HZ < cyclesPerSegment CLOCK_HZ ∧
        c % cyclesPerSegment CLOCK_HZ < 2 ^ 31) ∧
    ((¬ ∃ c, c < 8 * cyclesPerSegment CLOCK_HZ ∧
        ledrAt d r vo c ≠ levelAt expected (cyclesPerSegment CLOCK_HZ) c) →
      (main d r CLOCK_HZ args).status = Status.exit 0) := by
  have hrst : (atCycle d r vo 0).top.p_rst = false := atCycle_rst d r vo 0
  rcases main_cases d r CLOCK_HZ args vo hargs with
    ⟨hall, hm⟩ | ⟨c0, hc0, hmin, hbad, hm⟩ | ⟨c0, hc0, hmin, hok, hg, hm⟩
  · -- every cycle passes
    have hnone : ¬ ∃ c, c < 8 * cyclesPerSegment CLOCK_HZ ∧
        ledrAt d r vo c ≠ levelAt expected (cyclesPerSegment CLOCK_HZ) c := by
      rintro ⟨c, hc, hne⟩
      exact hne (hall c hc).1
    refine ⟨?_, ?_, ?_⟩
    · rw [hm, finish_status]
      constructor
      · intro h
        simp at h
      · intro h
        exact absurd h hnone
    · intro c hc hne _
      exact absurd ⟨c, hc, hne⟩ hnone
    · intro _
      rw [hm, finish_status]
  · -- first failing cycle has a wrong ledr
    refine ⟨?_, ?_, ?_⟩
    · rw [hm, finish_status]
      exact ⟨fun _ => ⟨c0, hc0, hbad⟩, fun _ => rfl⟩
    · intro c hc hne hbefore
      have hcc : c = c0 := by
        rcases Nat.lt_trichotomy c c0 with h | h | h
        · exact absurd (hmin c h).1 hne
        · exact h
        · exact absurd (hbefore c0 h) hbad
      subst hcc
      have hlog : (main d r CLOCK_HZ args).log =
          startEvents vo ++ passLog d r c (atCycle d r vo 0) ++
            [Event.getLedr (ledrAt d r vo c),
             Event.cerrLedr (c / cyclesPerSegment CLOCK_HZ) (c % cyclesPerSegment CLOCK_HZ)] ++
            endEvents r vo (atCycle d r vo c) := by
        rw [hm, finish_log]
        simp only [List.append_assoc]
      have hpos : 0 < cyclesPerSegment CLOCK_HZ := by omega
      have hmod : c % cyclesPerSegment CLOCK_HZ < cyclesPerSegment CLOCK_HZ :=
        Nat.mod_lt _ hpos
      refine ⟨hlog, ?_, ?_, hmod, lt_trans hmod hint⟩
      · intro i j
        rw [hlog]
        simp only [List.mem_append, List.mem_cons, List.mem_singleton, List.not_mem_nil,
          or_false, cerrLedr_not_mem_startEvents, cerrLedr_not_mem_endEvents,
          cerrLedr_not_mem_passLog d r c _ hrst, false_or, Event.cerrLedr.injEq]
        simp
      · exact Nat.div_lt_of_lt_mul (by rw [Nat.mul_comm]; exact hc)
    · intro hnone
      exact absurd ⟨c0, hc0, hbad⟩ hnone
  · -- first failing cycle has ledg low: excluded by the hypothesis on ledg
    have hgt := hledg c0 hc0 (by
      intro c1 h1
      rcases Nat.lt_or_eq_of_le h1 with h | h
      · exact (hmin c1 h).1
      · rw [h]; exact hok)
    rw [hg] at hgt
    exact absurd hgt (by simp)

/-- C1 at a concrete run: one cycle per segment, `ledr` wrong in cycle 3. -/
theorem main_returns_one_iff_mismatch_witness :
    parseArgs [] none = Except.ok none ∧
    cyclesPerSegment 4 < 2 ^ 31 ∧
    (∀ c, c < 8 * cyclesPerSegment 4 →
      (∀ c1, c1 ≤ c → ledrAt (flipAt 1 3) tally none c1 = levelAt expected (cyclesPerSegment 4) c1) →
      ledgAt (flipAt 1 3) tally none c = true) ∧
    (main (flipAt 1 3) tally 4 []).status = Status.exit 1 ∧
    Event.cerrLedr 3 0 ∈ (main (flipAt 1 3) tally 4 []).log :=
  ⟨rfl, by decide, by decide,
    (main_returns_one_iff_mismatch (flipAt 1 3) tally 4 [] none rfl (by decide)
      (by decide)).1.2 ⟨3, by decide, by decide⟩,
    (((main_returns_one_iff_mismatch (flipAt 1 3) tally 4 [] none rfl (by decide)
      (by decide)).2.1 3 (by decide) (by decide) (by decide)).2.1 3 0).2
      ⟨by decide, by decide⟩⟩

/-- C2 (as stated, refuted). A run started without `--vcd` does call the
recorder's sample operation: `step()` samples unconditionally. -/
theorem sample_called_without_vcd :
    parseArgs [] none = Except.ok none ∧
    ¬ (∀ t, Event.vcdSample t ∉ (main (golden 1) tally 4 []).log) ∧
    Event.vcdSample 0 ∈ (main (golden 1) tally 4 []).log ∧
    Event.vcdAdd ∉ (main (golden 1) tally 4 []).log := by
  refine ⟨rfl, ?_, by decide, by decide⟩
  intro h
  exact h 0 (by decide)

/-- C2 (amended). `step()` makes its two sample calls in every state, whether
or not tracing was requested: every accepted run samples at timestamps 0 and 1
in the reset cycle.  A run started without `--vcd` registers nothing with the
recorder (no `debug_info`, no `add`: its first samples go to the recorder as
constructed) and writes no file. -/
theorem step_samples_unconditionally (d : Design σ δ) (r : Recorder σ δ ρ) (CLOCK_HZ : Int)
    (args : List String) (vo : Option String) (hargs : parseArgs args none = Except.ok vo) :
    (∀ s : Sim σ ρ, ∃ t1 t2, (step d r s).1.filter (fun e => e matches Event.vcdSample _)
        = [Event.vcdSample t1, Event.vcdSample t2]) ∧
    Event.vcdSample 0 ∈ (main d r CLOCK_HZ args).log ∧
    Event.vcdSample 1 ∈ (main d r CLOCK_HZ args).log ∧
    (vo = none →
      Event.vcdAdd ∉ (main d r CLOCK_HZ args).log ∧
      (∀ p, Event.debugInfo p ∉ (main d r CLOCK_HZ args).log) ∧
      (∀ p b, Event.writeFile p b ∉ (main d r CLOCK_HZ args).log) ∧
      (atCycle d r vo 0).vcd =
        r.sample 1 { p_clk := false, p_rst := true,
                     st := d.step false true (d.step true true d.init) }
          (r.sample 0 { p_clk := true, p_rst := true, st := d.step true true d.init } r.init)) := by
  obtain ⟨c, tail, _, hlog, _, htail⟩ := main_shape d r CLOCK_HZ args vo hargs
  have hrst : (atCycle d r vo 0).top.p_rst = false := atCycle_rst d r vo 0
  refine ⟨?_, ?_, ?_, ?_⟩
  · intro s
    exact ⟨s.vcd_time, (s.vcd_time + 1) % U64, by rw [step_log]; rfl⟩
  · rw [hlog]
    cases vo <;> simp [startEvents, stepEvents]
  · rw [hlog]
    cases vo <;> simp [startEvents, stepEvents, U64]
  · intro hvo
    subst hvo
    have hpass : ∀ e, e ∈ passLog d r c (atCycle d r none 0) →
        e ≠ Event.vcdAdd ∧ (∀ p, e ≠ Event.debugInfo p) ∧ (∀ p b, e ≠ Event.writeFile p b) := by
      intro e he
      have h := passLog_isPassing d r c _ hrst e he
      cases e <;> simp_all [Event.isPassing]
    have htl : ∀ e, e ∈ tail →
        e ≠ Event.vcdAdd ∧ (∀ p, e ≠ Event.debugInfo p) ∧ (∀ p b, e ≠ Event.writeFile p b) := by
      intro e he
      rcases htail with ⟨_, ht⟩ | ⟨_, v, i, j, ht⟩ | ⟨_, v, ht⟩ <;>
        · subst ht
          simp only [endEvents, List.mem_append, List.mem_cons, List.mem_singleton,
            List.not_mem_nil, or_false] at he
          cases e <;> simp_all
    have hst : ∀ e, e ∈ startEvents none →
        e ≠ Event.vcdAdd ∧ (∀ p, e ≠ Event.debugInfo p) ∧ (∀ p b, e ≠ Event.writeFile p b) := by
      intro e he
      simp only [startEvents, stepEvents, Option.isSome_none, Bool.false_eq_true, if_false,
        List.nil_append, List.mem_append, List.mem_cons, List.mem_singleton, List.not_mem_nil,
        or_false] at he
      rcases he with (h | h) | h
      · subst h; simp
      · rcases h with h | h | h | h | h | h <;> subst h <;> simp
      · subst h; simp
    have hall : ∀ e, e ∈ (main d r CLOCK_HZ args).log →
        e ≠ Event.vcdAdd ∧ (∀ p, e ≠ Event.debugInfo p) ∧ (∀ p b, e ≠ Event.writeFile p b) := by
      intro e he
      rw [hlog] at he
      simp only [List.mem_append] at he
      rcases he with (h | h) | h
      · exact hst e h
      · exact hpass e h
      · exact htl e h
    refine ⟨fun h => (hall _ h).1 rfl, fun p h => (hall _ h).2.1 p rfl,
      fun p b h => (hall _ h).2.2 p b rfl, ?_⟩
    show (startup d r none (initSim d r)).2.vcd = _
    rw [startup_vcd]
    rfl

/-- C2 (amended) at a concrete run without arguments. -/
theorem step_samples_unconditionally_witness :
    parseArgs [] none = Except.ok none ∧
    Event.vcdSample 1 ∈ (main (golden 1) tally 4 []).log ∧
    (∀ p b, Event.writeFile p b ∉ (main (golden 1) tally 4 []).log) :=
  ⟨rfl, (step_samples_unconditionally (golden 1) tally 4 [] none rfl).2.2.1,
    ((step_samples_unconditionally (golden 1) tally 4 [] none rfl).2.2.2 rfl).2.2.1⟩

/-- C3. In every accepted run the log is: registration events only (if any),
then the reset cycle `rst := 1; step(); rst := 0`, whose two model deltas are
the only ones that see reset asserted, then the rest of the run, in which
every model delta sees reset deasserted and the reset pin is not written
again.  All reads of `ledr` are in that rest, so the first one comes after the
reset cycle has completed and reset has been deasserted. -/
theorem reset_exactly_first_cycle (d : Design σ δ) (r : Recorder σ δ ρ) (CLOCK_HZ : Int)
    (args : List String) (vo : Option String) (hargs : parseArgs args none = Except.ok vo) :
    ∃ pre post,
      (main d r CLOCK_HZ args).log =
        pre ++ [Event.setRst true,
                Event.setClk true, Event.topStep true true, Event.vcdSample 0,
                Event.setClk false, Event.topStep false true, Event.vcdSample 1,
                Event.setRst false] ++ post ∧
      (∀ e, e ∈ pre → e = Event.debugInfo "top " ∨ e = Event.vcdAdd) ∧
      (∀ e, e ∈ post → (∀ clk, e ≠ Event.topStep clk true) ∧ (∀ b, e ≠ Event.setRst b)) ∧
      (∀ v, Event.getLedr v ∈ (main d r CLOCK_HZ args).log → Event.getLedr v ∈ post) := by
  obtain ⟨c, tail, _, hlog, _, htail⟩ := main_shape d r CLOCK_HZ args vo hargs
  have hrst : (atCycle d r vo 0).top.p_rst = false := atCycle_rst d r vo 0
  refine ⟨if vo.isSome then [Event.debugInfo "top ", Event.vcdAdd] else [],
    passLog d r c (atCycle d r vo 0) ++ tail, ?_, ?_, ?_, ?_⟩
  · rw [hlog]
    simp [startEvents, stepEvents, U64]
  · intro e he
    cases vo <;> simp_all
  · intro e he
    rcases List.mem_append.mp he with h | h
    · have hp := passLog_isPassing d r c _ hrst e h
      cases e <;> simp_all [Event.isPassing]
    · rcases htail with ⟨_, ht⟩ | ⟨_, v, i, j, ht⟩ | ⟨_, v, ht⟩ <;>
        · subst ht
          cases vo <;>
            · simp only [endEvents, List.mem_append, List.mem_cons, List.mem_singleton,
                List.not_mem_nil, or_false] at h
              cases e <;> simp_all
  · intro v hv
    rw [hlog] at hv
    cases vo <;> simp_all [startEvents, stepEvents]

/-- C3 at a concrete run with tracing requested. -/
theorem reset_exactly_first_cycle_witness :
    parseArgs ["--vcd", "o"] none = Except.ok (some "o") ∧
    ∃ pre post,
      (main (golden 1) tally 4 ["--vcd", "o"]).log =
        pre ++ [Event.setRst true,
                Event.setClk true, Event.topStep true true, Event.vcdSample 0,
                Event.setClk false, Event.topStep false true, Event.vcdSample 1,
                Event.setRst false] ++ post ∧
      (∀ e, e ∈ pre → e = Event.debugInfo "top " ∨ e = Event.vcdAdd) ∧
      (∀ e, e ∈ post → (∀ clk, e ≠ Event.topStep clk true) ∧ (∀ b, e ≠ Event.setRst b)) ∧
      (∀ v, Event.getLedr v ∈ (main (golden 1) tally 4 ["--vcd", "o"]).log →
        Event.getLedr v ∈ post) :=
  ⟨rfl, reset_exactly_first_cycle (golden 1) tally 4 ["--vcd", "o"] (some "o") rfl⟩

/-- C4. From any state with counter value `t`, one call of `step()` performs,
in this order: clk := 1, model step, sample(t), clk := 0, model step,
sample(t + 1); both model steps see the reset pin unchanged, the design has
made exactly two deltas, the recorder has taken exactly these two samples, clk
is left low and the counter at `t + 2`.  The counter is a `uint64_t`: `t + 1`
and `t + 2` are taken modulo `2 ^ 64`, and are exact when `t + 2 < 2 ^ 64`. -/
theorem step_two_deltas (d : Design σ δ) (r : Recorder σ δ ρ) (s : Sim σ ρ) :
    (step d r s).1 =
      [Event.setClk true, Event.topStep true s.top.p_rst, Event.vcdSample s.vcd_time,
       Event.setClk false, Event.topStep false s.top.p_rst,
       Event.vcdSample ((s.vcd_time + 1) % 2 ^ 64)] ∧
    (step d r s).2.top.st = d.step false s.top.p_rst (d.step true s.top.p_rst s.top.st) ∧
    (step d r s).2.top.p_clk = false ∧
    (step d r s).2.top.p_rst = s.top.p_rst ∧
    (step d r s).2.vcd =
      r.sample ((s.vcd_time + 1) % 2 ^ 64)
        { p_clk := false, p_rst := s.top.p_rst,
          st := d.step false s.top.p_rst (d.step true s.top.p_rst s.top.st) }
        (r.sample s.vcd_time
          { p_clk := true, p_rst := s.top.p_rst, st := d.step true s.top.p_rst s.top.st }
          s.vcd) ∧
    (step d r s).2.vcd_time = (s.vcd_time + 2) % 2 ^ 64 ∧
    (s.vcd_time + 2 < 2 ^ 64 →
      (step d r s).1 =
        [Event.setClk true, Event.topStep true s.top.p_rst, Event.vcdSample s.vcd_time,
         Event.setClk false, Event.topStep false s.top.p_rst,
         Event.vcdSample (s.vcd_time + 1)] ∧
      (step d r s).2.vcd_time = s.vcd_time + 2) := by
  have ht : (step d r s).2.vcd_time = (s.vcd_time + 2) % 2 ^ 64 := step_time d r s
  refine ⟨rfl, rfl, rfl, rfl, rfl, ht, ?_⟩
  intro h
  have h1 : (s.vcd_time + 1) % 2 ^ 64 = s.vcd_time + 1 := Nat.mod_eq_of_lt (by omega)
  refine ⟨?_, ?_⟩
  · rw [step_log, stepEvents]
    simp only [U64, h1]
  · rw [ht, Nat.mod_eq_of_lt h]

/-- C4 at a concrete state: counter 6, reset low. -/
theorem step_two_deltas_witness :
    (6 : Nat) + 2 < 2 ^ 64 ∧
    (step (golden 1) tally
        { top := { p_clk := false, p_rst := false, st := (3, 0, true) }, vcd := "",
          vcd_time := 6 }).1 =
      [Event.setClk true, Event.topStep true false, Event.vcdSample 6,
       Event.setClk false, Event.topStep false false, Event.vcdSample 7] ∧
    (step (golden 1) tally
        { top := { p_clk := false, p_rst := false, st := (3, 0, true) }, vcd := "",
          vcd_time := 6 }).2.vcd_time = 6 + 2 :=
  ⟨by norm_num,
    (step_two_deltas (golden 1) tally
      { top := { p_clk := false, p_rst := false, st := (3, 0, true) }, vcd := "",
        vcd_time := 6 }).2.2.2.2.2.2 (by norm_num)⟩

/-- C5 (as stated, refuted). After the reset sequence and before the first
verification cycle the counter is 2, not 1: the reset cycle is one ordinary
`step()` of two deltas. -/
theorem reset_cycle_counts_two :
    (atCycle (golden 1) tally none 0).vcd_time = 2 ∧
    ¬ ((atCycle (golden 1) tally none 0).vcd_time = 1) ∧
    (main (golden 1) tally 0 []).final.vcd_time = 2 := by
  refine ⟨by decide, by decide, by decide⟩

/-- C5 (amended). The counter starts at 0 and increases by exactly 2 for every
`step()` call of a run, the one of the reset sequence and those of the
verification loop alike: it is 2 after the reset sequence and `2 + 2 * c`
before verification cycle `c` (`CLOCK_HZ / 4` fits the `int` loop counter, so
the 64-bit counter does not wrap). -/
theorem clock_adds_two_per_step (d : Design σ δ) (r : Recorder σ δ ρ) (CLOCK_HZ : Int)
    (vo : Option String) (hint : cyclesPerSegment CLOCK_HZ < 2 ^ 31) :
    (initSim d r).vcd_time = 0 ∧
    (atCycle d r vo 0).vcd_time = 2 ∧
    (∀ c, c < 8 * cyclesPerSegment CLOCK_HZ →
      (atCycle d r vo c).vcd_time = 2 + 2 * c ∧
      (step d r (atCycle d r vo c)).2.vcd_time = (atCycle d r vo c).vcd_time + 2 ∧
      atCycle d r vo (c + 1) = (step d r (atCycle d r vo c)).2) := by
  refine ⟨rfl, atCycle_time d r vo 0 (by norm_num [U64]), ?_⟩
  intro c hc
  have hb : 2 + 2 * (c + 1) < U64 := by
    simp only [U64]
    omega
  have h1 : (atCycle d r vo c).vcd_time = 2 + 2 * c :=
    atCycle_time d r vo c (by omega)
  have h2 : atCycle d r vo (c + 1) = (step d r (atCycle d r vo c)).2 :=
    afterSteps_succ d r c _
  refine ⟨h1, ?_, h2⟩
  rw [← h2, atCycle_time d r vo (c + 1) hb, h1]
  omega

/-- C5 (amended) at `CLOCK_HZ = 4`, cycle 7. -/
theorem clock_adds_two_per_step_witness :
    cyclesPerSegment 4 < 2 ^ 31 ∧
    (atCycle (golden 1) tally none 0).vcd_time = 2 ∧
    (atCycle (golden 1) tally none 7).vcd_time = 2 + 2 * 7 :=
  ⟨by decide, (clock_adds_two_per_step (golden 1) tally 4 none (by decide)).2.1,
    ((clock_adds_two_per_step (golden 1) tally 4 none (by decide)).2.2 7 (by decide)).1⟩

/-- C6. For a design that shows the expected level with `ledg` high at every
cycle, `main` returns 0, the one number printed after "finished on cycle" is
`vcd_time / 2 = 8 * cps + 1` (the `8 * cps` verification cycles plus the reset
cycle), and the run makes that many `step()` calls; for `cps = 250` it makes
2000 verification cycles and prints 2001.  (`CLOCK_HZ / 4` fits the `int` loop
counter.) -/
theorem conforming_run_passes (d : Design σ δ) (r : Recorder σ δ ρ) (CLOCK_HZ : Int)
    (args : List String) (vo : Option String)
    (hargs : parseArgs args none = Except.ok vo)
    (hint : cyclesPerSegment CLOCK_HZ < 2 ^ 31)
    (hconf : ∀ c, c < 8 * cyclesPerSegment CLOCK_HZ →
      okAt d r vo (cyclesPerSegment CLOCK_HZ) c) :
    (main d r CLOCK_HZ args).status = Status.exit 0 ∧
    (∀ n, Event.coutFinished n ∈ (main d r CLOCK_HZ args).log ↔
      n = 8 * cyclesPerSegment CLOCK_HZ + 1) ∧
    (main d r CLOCK_HZ args).final.vcd_time / 2 = 8 * cyclesPerSegment CLOCK_HZ + 1 ∧
    (main d r CLOCK_HZ args).final.vcd_time = 2 * (8 * cyclesPerSegment CLOCK_HZ) + 2 ∧
    stepCalls (main d r CLOCK_HZ args).log = 8 * cyclesPerSegment CLOCK_HZ + 1 ∧
    (cyclesPerSegment CLOCK_HZ = 250 →
      Event.coutFinished 2001 ∈ (main d r CLOCK_HZ args).log ∧
      stepCalls (main d r CLOCK_HZ args).log = 2000 + 1) := by
  have hrst : (atCycle d r vo 0).top.p_rst = false := atCycle_rst d r vo 0
  have htime : (atCycle d r vo (8 * cyclesPerSegment CLOCK_HZ)).vcd_time
      = 2 + 2 * (8 * cyclesPerSegment CLOCK_HZ) :=
    atCycle_time d r vo _ (by simp only [U64]; omega)
  have hm : main d r CLOCK_HZ args =
      finish r vo (startEvents vo ++
          passLog d r (8 * cyclesPerSegment CLOCK_HZ) (atCycle d r vo 0))
        { rc := 0, done := false } (atCycle d r vo (8 * cyclesPerSegment CLOCK_HZ)) := by
    rcases main_cases d r CLOCK_HZ args vo hargs with
      ⟨_, hm⟩ | ⟨c0, hc0, _, hbad, _⟩ | ⟨c0, hc0, _, _, hg, _⟩
    · exact hm
    · exact absurd (hconf c0 hc0).1 hbad
    · have := (hconf c0 hc0).2
      rw [hg] at this
      exact absurd this (by simp)
  have hprint : ∀ n, Event.coutFinished n ∈ (main d r CLOCK_HZ args).log ↔
      n = 8 * cyclesPerSegment CLOCK_HZ + 1 := by
    intro n
    rw [hm, finish_log]
    simp only [List.mem_append, coutFinished_not_mem_startEvents,
      coutFinished_not_mem_passLog d r _ _ hrst, false_or, coutFinished_mem_endEvents, htime]
    omega
  have hcalls : stepCalls (main d r CLOCK_HZ args).log = 8 * cyclesPerSegment CLOCK_HZ + 1 := by
    rw [hm, finish_log, stepCalls_append, stepCalls_append, startEvents_stepCalls,
      passLog_stepCalls, endEvents_stepCalls]
    omega
  refine ⟨by rw [hm, finish_status], hprint, ?_, ?_, hcalls, ?_⟩
  · rw [hm, finish_final, htime]
    omega
  · rw [hm, finish_final, htime]
    omega
  · intro h250
    refine ⟨(hprint 2001).2 (by omega), ?_⟩
    rw [hcalls]
    omega

/-- C6 at Scenario A: the expected blinker at `CLOCK_HZ = 1000`, 250 cycles
per segment. -/
theorem conforming_run_passes_witness :
    parseArgs [] none = Except.ok none ∧
    cyclesPerSegment 1000 < 2 ^ 31 ∧
    (∀ c, c < 8 * cyclesPerSegment 1000 → okAt (golden 250) tally none (cyclesPerSegment 1000) c) ∧
    (main (golden 250) tally 1000 []).status = Status.exit 0 ∧
    Event.coutFinished 2001 ∈ (main (golden 250) tally 1000 []).log ∧
    stepCalls (main (golden 250) tally 1000 []).log = 2000 + 1 :=
  ⟨rfl, by decide, fun c _ => golden_okAt 250 tally none c,
    (conforming_run_passes (golden 250) tally 1000 [] none rfl (by decide)
      (fun c _ => golden_okAt 250 tally none c)).1,
    (conforming_run_passes (golden 250) tally 1000 [] none rfl (by decide)
      (fun c _ => golden_okAt 250 tally none c)).2.2.2.2.2 (by decide)⟩

/-- C7. When the first cycle that does not pass is cycle `i * cps + j` of
segment `i < 8`, offset `j < cps`, and `ledr` is wrong there, the loop stops
at once: the failing read is followed only by the report `(i, j)`, the
"finished" line and the trace file, so no `step()` and no pin read comes after
it; exactly `i * cps + j` verification cycles (and the reset cycle) were
executed, `main` returns 1 and prints `1 + i * cps + j`.  For `cps = 250`,
`i = 2`, `j = 10` the report is `(2, 10)` and the printed count 511.
(`CLOCK_HZ / 4` fits the `int` loop counter.) -/
theorem first_mismatch_stops (d : Design σ δ) (r : Recorder σ δ ρ) (CLOCK_HZ : Int)
    (args : List String) (vo : Option String) (i j : Nat)
    (hargs : parseArgs args none = Except.ok vo)
    (hint : cyclesPerSegment CLOCK_HZ < 2 ^ 31)
    (hi : i < 8) (hj : j < cyclesPerSegment CLOCK_HZ)
    (hbefore : ∀ c1, c1 < i * cyclesPerSegment CLOCK_HZ + j →
      okAt d r vo (cyclesPerSegment CLOCK_HZ) c1)
    (hbad : ledrAt d r vo (i * cyclesPerSegment CLOCK_HZ + j) ≠
      levelAt expected (cyclesPerSegment CLOCK_HZ) (i * cyclesPerSegment CLOCK_HZ + j)) :
    (main d r CLOCK_HZ args).status = Status.exit 1 ∧
    (∃ pre fin,
      (main d r CLOCK_HZ args).log =
        pre ++ [Event.getLedr (ledrAt d r vo (i * cyclesPerSegment CLOCK_HZ + j)),
                Event.cerrLedr i j] ++ fin ∧
      pre = startEvents vo ++
        passLog d r (i * cyclesPerSegment CLOCK_HZ + j) (atCycle d r vo 0) ∧
      stepCalls pre = 1 + (i * cyclesPerSegment CLOCK_HZ + j) ∧
      fin = endEvents r vo (atCycle d r vo (i * cyclesPerSegment CLOCK_HZ + j)) ∧
      (∀ e, e ∈ fin → e = Event.coutFinished (1 + i * cyclesPerSegment CLOCK_HZ + j) ∨
        ∃ p b, e = Event.writeFile p b)) ∧
    Event.coutFinished (1 + i * cyclesPerSegment CLOCK_HZ + j) ∈ (main d r CLOCK_HZ args).log ∧
    stepCalls (main d r CLOCK_HZ args).log = 1 + (i * cyclesPerSegment CLOCK_HZ + j) ∧
    (main d r CLOCK_HZ args).final = atCycle d r vo (i * cyclesPerSegment CLOCK_HZ + j) ∧
    (cyclesPerSegment CLOCK_HZ = 250 → i = 2 → j = 10 →
      Event.cerrLedr 2 10 ∈ (main d r CLOCK_HZ args).log ∧
      Event.coutFinished 511 ∈ (main d r CLOCK_HZ args).log) := by
  have hpos : 0 < cyclesPerSegment CLOCK_HZ := by omega
  have hlt : i * cyclesPerSegment CLOCK_HZ + j < 8 * cyclesPerSegment CLOCK_HZ := by
    have h1 : (i + 1) * cyclesPerSegment CLOCK_HZ ≤ 8 * cyclesPerSegment CLOCK_HZ :=
      Nat.mul_le_mul_right _ (by omega)
    rw [Nat.add_mul, Nat.one_mul] at h1
    omega
  have hdiv : (i * cyclesPerSegment CLOCK_HZ + j) / cyclesPerSegment CLOCK_HZ = i := by
    rw [Nat.add_comm, Nat.add_mul_div_right _ _ hpos, Nat.div_eq_of_lt hj, Nat.zero_add]
  have hmod : (i * cyclesPerSegment CLOCK_HZ + j) % cyclesPerSegment CLOCK_HZ = j := by
    rw [Nat.add_comm, Nat.add_mul_mod_self_right, Nat.mod_eq_of_lt hj]
  have htime : (atCycle d r vo (i * cyclesPerSegment CLOCK_HZ + j)).vcd_time
      = 2 + 2 * (i * cyclesPerSegment CLOCK_HZ + j) :=
    atCycle_time d r vo _ (by simp only [U64]; omega)
  have hm : main d r CLOCK_HZ args =
      finish r vo (startEvents vo ++
          (passLog d r (i * cyclesPerSegment CLOCK_HZ + j) (atCycle d r vo 0) ++
            [Event.getLedr (ledrAt d r vo (i * cyclesPerSegment CLOCK_HZ + j)),
             Event.cerrLedr i j]))
        { rc := 1, done := true } (atCycle d r vo (i * cyclesPerSegment CLOCK_HZ + j)) := by
    rcases main_cases d r CLOCK_HZ args vo hargs with
      ⟨hall, _⟩ | ⟨c0, hc0, hmin, hbad0, hm⟩ | ⟨c0, hc0, hmin, hok, hg, _⟩
    · exact absurd (hall _ hlt).1 hbad
    · have hcc : c0 = i * cyclesPerSegment CLOCK_HZ + j := by
        rcases Nat.lt_trichotomy c0 (i * cyclesPerSegment CLOCK_HZ + j) with h | h | h
        · exact absurd (hbefore c0 h).1 hbad0
        · exact h
        · exact absurd (hmin _ h).1 hbad
      subst hcc
      rw [hdiv, hmod] at hm
      exact hm
    · rcases Nat.lt_trichotomy c0 (i * cyclesPerSegment CLOCK_HZ + j) with h | h | h
      · have := (hbefore c0 h).2
        rw [hg] at this
        exact absurd this (by simp)
      · rw [h] at hok
        exact absurd hok hbad
      · exact absurd (hmin _ h).1 hbad
  have hfin : ∀ e, e ∈ endEvents r vo (atCycle d r vo (i * cyclesPerSegment CLOCK_HZ + j)) →
      e = Event.coutFinished (1 + i * cyclesPerSegment CLOCK_HZ + j) ∨
        ∃ p b, e = Event.writeFile p b := by
    intro e he
    have e2 : (2 + 2 * (i * cyclesPerSegment CLOCK_HZ + j)) / 2
        = 1 + i * cyclesPerSegment CLOCK_HZ + j := by omega
    cases vo with
    | none =>
        simp only [endEvents, Nat.shiftRight_eq_div_pow, htime, pow_one, e2, List.mem_cons,
          List.mem_singleton, List.not_mem_nil, or_false] at he
        exact Or.inl he
    | some p =>
        simp only [endEvents, Nat.shiftRight_eq_div_pow, htime, pow_one, e2, List.mem_cons,
          List.mem_singleton, List.not_mem_nil, or_false] at he
        rcases he with h | h
        · exact Or.inl h
        · exact Or.inr ⟨_, _, h⟩
  have hprint : Event.coutFinished (1 + i * cyclesPerSegment CLOCK_HZ + j) ∈
      (main d r CLOCK_HZ args).log := by
    rw [hm, finish_log]
    refine List.mem_append.mpr (Or.inr ?_)
    rw [coutFinished_mem_endEvents, htime]
    omega
  have hcalls : stepCalls (startEvents vo ++
      passLog d r (i * cyclesPerSegment CLOCK_HZ + j) (atCycle d r vo 0))
        = 1 + (i * cyclesPerSegment CLOCK_HZ + j) := by
    rw [stepCalls_append, startEvents_stepCalls, passLog_stepCalls]
  have hlog : (main d r CLOCK_HZ args).log =
      (startEvents vo ++ passLog d r (i * cyclesPerSegment CLOCK_HZ + j) (atCycle d r vo 0)) ++
        [Event.getLedr (ledrAt d r vo (i * cyclesPerSegment CLOCK_HZ + j)), Event.cerrLedr i j] ++
        endEvents r vo (atCycle d r vo (i * cyclesPerSegment CLOCK_HZ + j)) := by
    rw [hm, finish_log]
    simp only [List.append_assoc]
  refine ⟨by rw [hm, finish_status], ⟨_, _, hlog, rfl, hcalls, rfl, hfin⟩, hprint, ?_,
    by rw [hm, finish_final], ?_⟩
  · rw [hlog, stepCalls_append, stepCalls_append, hcalls, endEvents_stepCalls]
    simp [stepCalls]
  · intro h250 hi2 hj10
    subst hi2 hj10
    rw [h250] at hprint
    refine ⟨?_, hprint⟩
    rw [hlog]
    simp

/-- C7 at Scenario B: 250 cycles per segment, `ledr` wrong at segment 2,
offset 10, tracing requested. -/
theorem first_mismatch_stops_witness :
    parseArgs ["--vcd", "out.trace"] none = Except.ok (some "out.trace") ∧
    cyclesPerSegment 1000 < 2 ^ 31 ∧
    (∀ c1, c1 < 2 * cyclesPerSegment 1000 + 10 →
      okAt (flipAt 250 510) tally (some "out.trace") (cyclesPerSegment 1000) c1) ∧
    ledrAt (flipAt 250 510) tally (some "out.trace") (2 * cyclesPerSegment 1000 + 10) ≠
      levelAt expected (cyclesPerSegment 1000) (2 * cyclesPerSegment 1000 + 10) ∧
    (main (flipAt 250 510) tally 1000 ["--vcd", "out.trace"]).status = Status.exit 1 ∧
    Event.cerrLedr 2 10 ∈ (main (flipAt 250 510) tally 1000 ["--vcd", "out.trace"]).log ∧
    Event.coutFinished 511 ∈ (main (flipAt 250 510) tally 1000 ["--vcd", "out.trace"]).log := by
  have h250 : cyclesPerSegment 1000 = 250 := by decide
  have hbefore : ∀ c1, c1 < 2 * cyclesPerSegment 1000 + 10 →
      okAt (flipAt 250 510) tally (some "out.trace") (cyclesPerSegment 1000) c1 := by
    intro c1 h1
    rw [h250] at h1 ⊢
    refine ⟨?_, flipAt_ledgAt 250 510 tally _ c1⟩
    rw [flipAt_ledrAt, if_neg (by omega)]
  have hbad : ledrAt (flipAt 250 510) tally (some "out.trace") (2 * cyclesPerSegment 1000 + 10) ≠
      levelAt expected (cyclesPerSegment 1000) (2 * cyclesPerSegment 1000 + 10) := by
    rw [h250, flipAt_ledrAt]
    decide
  have h := first_mismatch_stops (flipAt 250 510) tally 1000 ["--vcd", "out.trace"]
    (some "out.trace") 2 10 rfl (by decide) (by decide) (by decide) hbefore hbad
  exact ⟨rfl, by decide, hbefore, hbad, h.1, (h.2.2.2.2.2 h250 rfl rfl).1,
    (h.2.2.2.2.2 h250 rfl rfl).2⟩

/-- C8. `main` returns 2 exactly when the left-to-right scan meets a token
that is not `--vcd` or a `--vcd` with no token after it; the message names the
first such token, it is the only thing the run does (no pin write, model step,
sample, registration or file write), and the statics stay as constructed, with
`vcd_time = 0`. -/
theorem bad_argument_exits_two (d : Design σ δ) (r : Recorder σ δ ρ) (CLOCK_HZ : Int)
    (args : List String) :
    ((main d r CLOCK_HZ args).status = Status.exit 2 ↔
      ∃ t, t ∈ scannedTokens args ∧ rejected t = true) ∧
    (∀ t, (scannedTokens args).find? rejected = some t →
      (main d r CLOCK_HZ args).status = Status.exit 2 ∧
      (main d r CLOCK_HZ args).log = [Event.cerrUnknownArg t.1] ∧
      (main d r CLOCK_HZ args).final = initSim d r ∧
      (main d r CLOCK_HZ args).final.vcd_time = 0) := by
  have hscan := parseArgs_scan args none
  cases hp : parseArgs args none with
  | error a =>
      rw [hp] at hscan
      obtain ⟨t, ht, hta⟩ := hscan
      have hm := main_rejected d r CLOCK_HZ args a hp
      refine ⟨?_, ?_⟩
      · rw [hm]
        exact ⟨fun _ => ⟨t, List.mem_of_find?_eq_some ht, List.find?_some ht⟩, fun _ => rfl⟩
      · intro t2 ht2
        rw [ht] at ht2
        have e : t = t2 := Option.some.inj ht2
        subst e
        rw [hm, hta]
        exact ⟨rfl, rfl, rfl, rfl⟩
  | ok vo =>
      rw [hp] at hscan
      have hnone : ¬ ∃ t, t ∈ scannedTokens args ∧ rejected t = true := by
        rintro ⟨t, ht, hr⟩
        rw [hscan t ht] at hr
        exact absurd hr (by simp)
      refine ⟨?_, ?_⟩
      · constructor
        · intro h
          rcases main_status_cases d r CLOCK_HZ args vo hp with h1 | h1 | h1 <;>
            · rw [h1] at h
              exact absurd h (by simp)
        · intro h
          exact absurd h hnone
      · intro t ht
        exact absurd ⟨t, List.mem_of_find?_eq_some ht, List.find?_some ht⟩ hnone

/-- C8 at Scenario D, after an accepted `--vcd` pair: the argument `--bogus`. -/
theorem bad_argument_exits_two_witness :
    (scannedTokens ["--vcd", "o", "--bogus", "--vcd"]).find? rejected = some ("--bogus", true) ∧
    (main (golden 1) tally 4 ["--vcd", "o", "--bogus", "--vcd"]).status = Status.exit 2 ∧
    (main (golden 1) tally 4 ["--vcd", "o", "--bogus", "--vcd"]).log
      = [Event.cerrUnknownArg "--bogus"] ∧
    (main (golden 1) tally 4 ["--vcd", "o", "--bogus", "--vcd"]).final.vcd_time = 0 :=
  ⟨by decide,
    ((bad_argument_exits_two (golden 1) tally 4 ["--vcd", "o", "--bogus", "--vcd"]).2
      ("--bogus", true) (by decide)).1,
    ((bad_argument_exits_two (golden 1) tally 4 ["--vcd", "o", "--bogus", "--vcd"]).2
      ("--bogus", true) (by decide)).2.1,
    ((bad_argument_exits_two (golden 1) tally 4 ["--vcd", "o", "--bogus", "--vcd"]).2
      ("--bogus", true) (by decide)).2.2.2⟩

/-- C9. In a run whose loop ends as PASSED or FAILED (status 0 or 1): if a
trace destination `p` was requested, the last action of the run is the one
write of the recorder's buffer to `p`; the buffer is that of the recorder at
the end of the run, which was registered with and has taken the two samples of
the reset cycle and those of every later `step()`; nothing else writes a file.
If no destination was requested, no file is written. -/
theorem trace_written_once (d : Design σ δ) (r : Recorder σ δ ρ) (CLOCK_HZ : Int)
    (args : List String) (vo : Option String)
    (hargs : parseArgs args none = Except.ok vo)
    (hend : (main d r CLOCK_HZ args).status ≠ Status.assertFailed) :
    ((main d r CLOCK_HZ args).status = Status.exit 0 ∨
      (main d r CLOCK_HZ args).status = Status.exit 1) ∧
    (∀ p, vo = some p →
      (∃ body,
        (main d r CLOCK_HZ args).log =
          body ++ [Event.writeFile p (r.buffer (main d r CLOCK_HZ args).final.vcd)] ∧
        (∀ q b, Event.writeFile q b ∉ body) ∧
        Event.vcdAdd ∈ body ∧ Event.vcdSample 0 ∈ body ∧ Event.vcdSample 1 ∈ body) ∧
      (∃ c, (main d r CLOCK_HZ args).final.vcd = (afterSteps d r c (atCycle d r vo 0)).vcd) ∧
      (atCycle d r vo 0).vcd =
        r.sample 1 { p_clk := false, p_rst := true,
                     st := d.step false true (d.step true true d.init) }
          (r.sample 0 { p_clk := true, p_rst := true, st := d.step true true d.init }
            (r.add (d.debug_info "top ") r.init))) ∧
    (vo = none → ∀ q b, Event.writeFile q b ∉ (main d r CLOCK_HZ args).log) := by
  obtain ⟨c, tail, _, hlog, hfinal, htail⟩ := main_shape d r CLOCK_HZ args vo hargs
  have hrst : (atCycle d r vo 0).top.p_rst = false := atCycle_rst d r vo 0
  have hst : (main d r CLOCK_HZ args).status = Status.exit 0 ∨
      (main d r CLOCK_HZ args).status = Status.exit 1 := by
    rcases main_status_cases d r CLOCK_HZ args vo hargs with h | h | h
    · exact Or.inl h
    · exact Or.inr h
    · exact absurd h hend
  have htl : ∃ mid, tail = mid ++ endEvents r vo (atCycle d r vo c) ∧
      ∀ q b, Event.writeFile q b ∉ mid := by
    rcases htail with ⟨_, ht⟩ | ⟨_, v, i, j, ht⟩ | ⟨h, _⟩
    · exact ⟨[], by rw [ht]; rfl, by simp⟩
    · exact ⟨[Event.getLedr v, Event.cerrLedr i j], ht, by simp⟩
    · exact absurd h hend
  obtain ⟨mid, hmid, hmidw⟩ := htl
  refine ⟨hst, ?_, ?_⟩
  · intro p hp
    subst hp
    refine ⟨⟨startEvents (some p) ++ passLog d r c (atCycle d r (some p) 0) ++ mid ++
        [Event.coutFinished ((atCycle d r (some p) c).vcd_time >>> 1)], ?_, ?_, ?_, ?_, ?_⟩,
      ⟨c, by rw [hfinal]; rfl⟩, ?_⟩
    · rw [hlog, hmid, hfinal]
      simp [endEvents]
    · intro q b hq
      simp only [List.mem_append, List.mem_singleton] at hq
      rcases hq with ((h | h) | h) | h
      · exact writeFile_not_mem_startEvents _ q b h
      · exact writeFile_not_mem_passLog d r c _ hrst q b h
      · exact hmidw q b h
      · exact absurd h (by simp)
    · simp [startEvents]
    · simp [startEvents, stepEvents]
    · simp [startEvents, stepEvents, U64]
    · show (startup d r (some p) (initSim d r)).2.vcd = _
      rw [startup_vcd]
      rfl
  · intro hvo q b hq
    subst hvo
    rw [hlog, hmid] at hq
    simp only [List.mem_append] at hq
    rcases hq with (h | h) | h | h
    · exact writeFile_not_mem_startEvents _ q b h
    · exact writeFile_not_mem_passLog d r c _ hrst q b h
    · exact hmidw q b h
    · simp [endEvents] at h

/-- C9 at Scenarios B and C together: tracing requested, `ledr` wrong in
cycle 3 of a run with one cycle per segment. -/
theorem trace_written_once_witness :
    parseArgs ["--vcd", "out.trace"] none = Except.ok (some "out.trace") ∧
    (main (flipAt 1 3) tally 4 ["--vcd", "out.trace"]).status ≠ Status.assertFailed ∧
    (main (flipAt 1 3) tally 4 ["--vcd", "out.trace"]).status = Status.exit 1 ∧
    (main (flipAt 1 3) tally 4 ["--vcd", "out.trace"]).final.vcd = "vssssssss" ∧
    ∃ body,
      (main (flipAt 1 3) tally 4 ["--vcd", "out.trace"]).log =
        body ++ [Event.writeFile "out.trace"
          (tally.buffer (main (flipAt 1 3) tally 4 ["--vcd", "out.trace"]).final.vcd)] ∧
      (∀ q b, Event.writeFile q b ∉ body) ∧
      Event.vcdAdd ∈ body ∧ Event.vcdSample 0 ∈ body ∧ Event.vcdSample 1 ∈ body :=
  ⟨rfl, by decide, by decide, by decide,
    ((trace_written_once (flipAt 1 3) tally 4 ["--vcd", "out.trace"] (some "out.trace") rfl
      (by decide)).2.1 "out.trace" rfl).1⟩

/-- C10. The run ends by the failed assertion exactly when some cycle
`c < 8 * cps` has `ledg` low while `ledr` matches at every cycle up to and
including `c` and `ledg` is high at every cycle before `c`; such a run reports
nothing (no mismatch report, no "finished" line, no file).  At a first
non-passing cycle `c` where `ledr` is wrong and `ledg` is low together, the run
is an ordinary FAILED with status 1: the assertion was evaluated in the `c`
cycles before and held each time, and is not evaluated at `c`; the report is
`(c / cps, c % cps)`.  (The assertion is compiled in, that is the program is
built without `NDEBUG`, and `CLOCK_HZ / 4` fits the `int` loop counter `j`.) -/
theorem assertion_only_on_match (d : Design σ δ) (r : Recorder σ δ ρ) (CLOCK_HZ : Int)
    (args : List String) (vo : Option String)
    (hargs : parseArgs args none = Except.ok vo)
    (hint : cyclesPerSegment CLOCK_HZ < 2 ^ 31) :
    ((main d r CLOCK_HZ args).status = Status.assertFailed ↔
      ∃ c, c < 8 * cyclesPerSegment CLOCK_HZ ∧ ledgAt d r vo c = false ∧
        (∀ c1, c1 ≤ c → ledrAt d r vo c1 = levelAt expected (cyclesPerSegment CLOCK_HZ) c1) ∧
        (∀ c1, c1 < c → ledgAt d r vo c1 = true)) ∧
    ((main d r CLOCK_HZ args).status = Status.assertFailed →
      ∀ e, e ∈ (main d r CLOCK_HZ args).log →
        (∀ i j, e ≠ Event.cerrLedr i j) ∧ (∀ n, e ≠ Event.coutFinished n) ∧
        (∀ q b, e ≠ Event.writeFile q b)) ∧
    (∀ c, c < 8 * cyclesPerSegment CLOCK_HZ →
      (∀ c1, c1 < c → okAt d r vo (cyclesPerSegment CLOCK_HZ) c1) →
      ledrAt d r vo c ≠ levelAt expected (cyclesPerSegment CLOCK_HZ) c →
      ledgAt d r vo c = false →
      (main d r CLOCK_HZ args).status = Status.exit 1 ∧
      Event.cerrLedr (c / cyclesPerSegment CLOCK_HZ) (c % cyclesPerSegment CLOCK_HZ)
        ∈ (main d r CLOCK_HZ args).log ∧
      Event.getLedg false ∉ (main d r CLOCK_HZ args).log ∧
      (main d r CLOCK_HZ args).log.count (Event.getLedg true) = c ∧
      c / cyclesPerSegment CLOCK_HZ < 8 ∧
      c % cyclesPerSegment CLOCK_HZ < 2 ^ 31) := by
  have hrst : (atCycle d r vo 0).top.p_rst = false := atCycle_rst d r vo 0
  rcases main_cases d r CLOCK_HZ args vo hargs with
    ⟨hall, hm⟩ | ⟨c0, hc0, hmin, hbad, hm⟩ | ⟨c0, hc0, hmin, hok, hg, hm⟩
  · -- every cycle passes
    have hst : (main d r CLOCK_HZ args).status = Status.exit 0 := by rw [hm, finish_status]
    refine ⟨?_, ?_, ?_⟩
    · constructor
      · intro h
        rw [hst] at h
        exact absurd h (by simp)
      · rintro ⟨c, hc, hgc, _, _⟩
        have := (hall c hc).2
        rw [hgc] at this
        exact absurd this (by simp)
    · intro h
      rw [hst] at h
      exact absurd h (by simp)
    · intro c hc _ hne _
      exact absurd (hall c hc).1 hne
  · -- the first non-passing cycle has a wrong ledr
    have hst : (main d r CLOCK_HZ args).status = Status.exit 1 := by rw [hm, finish_status]
    have hlog : (main d r CLOCK_HZ args).log =
        startEvents vo ++ (passLog d r c0 (atCycle d r vo 0) ++
          ([Event.getLedr (ledrAt d r vo c0),
            Event.cerrLedr (c0 / cyclesPerSegment CLOCK_HZ) (c0 % cyclesPerSegment CLOCK_HZ)] ++
          endEvents r vo (atCycle d r vo c0))) := by
      rw [hm, finish_log]
      simp only [List.append_assoc]
    refine ⟨?_, ?_, ?_⟩
    · constructor
      · intro h
        rw [hst] at h
        exact absurd h (by simp)
      · rintro ⟨c, _, hgc, hr, hgb⟩
        rcases Nat.lt_or_ge c c0 with h | h
        · have := (hmin c h).2
          rw [hgc] at this
          exact absurd this (by simp)
        · exact absurd (hr c0 h) hbad
    · intro h
      rw [hst] at h
      exact absurd h (by simp)
    · intro c hc hbefore hne hgc
      have hcc : c = c0 := by
        rcases Nat.lt_trichotomy c c0 with h | h | h
        · exact absurd (hmin c h).1 hne
        · exact h
        · exact absurd (hbefore c0 h).1 hbad
      subst hcc
      have hpos : 0 < cyclesPerSegment CLOCK_HZ := by omega
      refine ⟨hst, ?_, ?_, ?_, Nat.div_lt_of_lt_mul (by rw [Nat.mul_comm]; exact hc),
        lt_trans (Nat.mod_lt _ hpos) hint⟩
      · rw [hlog]
        simp
      · rw [hlog]
        intro hmem
        simp only [List.mem_append, List.mem_cons, List.mem_singleton, List.not_mem_nil,
          or_false] at hmem
        rcases hmem with h | h | (h | h) | h
        · cases vo <;> simp [startEvents, stepEvents] at h
        · exact getLedg_false_not_mem_passLog d r c _ hrst h
        · exact absurd h (by simp)
        · exact absurd h (by simp)
        · cases vo <;> simp [endEvents] at h
      · rw [hlog]
        simp only [List.count_append, startEvents_asserts, passLog_asserts, endEvents_asserts]
        simp
  · -- the first non-passing cycle has a matching ledr and ledg low
    have hst : (main d r CLOCK_HZ args).status = Status.assertFailed := by rw [hm]
    refine ⟨?_, ?_, ?_⟩
    · refine ⟨fun _ => ⟨c0, hc0, hg, ?_, fun c1 h1 => (hmin c1 h1).2⟩, fun _ => hst⟩
      intro c1 h1
      rcases Nat.lt_or_eq_of_le h1 with h | h
      · exact (hmin c1 h).1
      · rw [h]
        exact hok
    · intro _ e he
      rw [hm] at he
      simp only [List.mem_append, List.mem_cons, List.mem_singleton, List.not_mem_nil,
        or_false] at he
      rcases he with h | h | h | h
      · cases vo <;> cases e <;> simp_all [startEvents, stepEvents]
      · have hp := passLog_isPassing d r c0 _ hrst e h
        cases e <;> simp_all [Event.isPassing]
      · subst h
        simp
      · subst h
        simp
    · intro c hc hbefore hne hgc
      rcases Nat.lt_trichotomy c c0 with h | h | h
      · exact absurd (hmin c h).1 hne
      · rw [h] at hne
        exact absurd hok hne
      · have := (hbefore c0 h).2
        rw [hg] at this
        exact absurd this (by simp)

/-- C10 at two concrete runs: a design with `ledr = 1` and `ledg` low from
cycle 0 on (segment 0 expects 0) ends with status 1 without evaluating the
assertion; a design with `ledr = 0` and `ledg` low ends by the assertion. -/
theorem assertion_only_on_match_witness :
    parseArgs [] none = Except.ok none ∧
    cyclesPerSegment 4 < 2 ^ 31 ∧
    (0 < 8 * cyclesPerSegment 4) ∧
    ledrAt wrongAndDark tally none 0 ≠ levelAt expected (cyclesPerSegment 4) 0 ∧
    ledgAt wrongAndDark tally none 0 = false ∧
    (main wrongAndDark tally 4 []).status = Status.exit 1 ∧
    Event.getLedg false ∉ (main wrongAndDark tally 4 []).log ∧
    (main darkLedg tally 4 []).status = Status.assertFailed :=
  ⟨rfl, by decide, by decide, by decide, by decide,
    ((assertion_only_on_match wrongAndDark tally 4 [] none rfl (by decide)).2.2 0 (by decide)
      (fun c1 h1 => absurd h1 (Nat.not_lt_zero c1)) (by decide) (by decide)).1,
    ((assertion_only_on_match wrongAndDark tally 4 [] none rfl (by decide)).2.2 0 (by decide)
      (fun c1 h1 => absurd h1 (Nat.not_lt_zero c1)) (by decide) (by decide)).2.2.1,
    (assertion_only_on_match darkLedg tally 4 [] none rfl (by decide)).1.2
      ⟨0, by decide, by decide, by decide, by decide⟩⟩

/-! ## Further shared lemmas -/

theorem cyclesPerSegment_eq (CLOCK_HZ : Int) :
    cyclesPerSegment CLOCK_HZ = CLOCK_HZ.toNat / 4 := by
  unfold cyclesPerSegment
  rcases Int.lt_or_le CLOCK_HZ 0 with h | h
  · have h1 : Int.tdiv CLOCK_HZ 4 ≤ 0 := by
      have h2 : 0 ≤ Int.tdiv (-CLOCK_HZ) 4 := Int.tdiv_nonneg (by omega) (by omega)
      rw [Int.neg_tdiv] at h2
      omega
    omega
  · rw [Int.tdiv_eq_ediv h (by omega)]
    omega

/-- A run in which every cycle passes. -/
theorem main_pass_eq (d : Design σ δ) (r : Recorder σ δ ρ) (CLOCK_HZ : Int) (args : List String)
    (vo : Option String) (hargs : parseArgs args none = Except.ok vo)
    (hall : ∀ c, c < 8 * cyclesPerSegment CLOCK_HZ → okAt d r vo (cyclesPerSegment CLOCK_HZ) c) :
    main d r CLOCK_HZ args =
      finish r vo (startEvents vo ++ passLog d r (8 * cyclesPerSegment CLOCK_HZ) (atCycle d r vo 0))
        { rc := 0, done := false } (atCycle d r vo (8 * cyclesPerSegment CLOCK_HZ)) := by
  rcases main_cases d r CLOCK_HZ args vo hargs with
    ⟨_, hm⟩ | ⟨c0, hc0, _, hbad, _⟩ | ⟨c0, hc0, _, _, hg, _⟩
  · exact hm
  · exact absurd (hall c0 hc0).1 hbad
  · have := (hall c0 hc0).2
    rw [hg] at this
    exact absurd this (by simp)

/-- A run whose first non-passing cycle `c` has a wrong `ledr`. -/
theorem main_fail_eq (d : Design σ δ) (r : Recorder σ δ ρ) (CLOCK_HZ : Int) (args : List String)
    (vo : Option String) (hargs : parseArgs args none = Except.ok vo) (c : Nat)
    (hc : c < 8 * cyclesPerSegment CLOCK_HZ)
    (hmin : ∀ c1, c1 < c → okAt d r vo (cyclesPerSegment CLOCK_HZ) c1)
    (hbad : ledrAt d r vo c ≠ levelAt expected (cyclesPerSegment CLOCK_HZ) c) :
    main d r CLOCK_HZ args =
      finish r vo (startEvents vo ++ (passLog d r c (atCycle d r vo 0) ++
          [Event.getLedr (ledrAt d r vo c),
           Event.cerrLedr (c / cyclesPerSegment CLOCK_HZ) (c % cyclesPerSegment CLOCK_HZ)]))
        { rc := 1, done := true } (atCycle d r vo c) := by
  rcases main_cases d r CLOCK_HZ args vo hargs with
    ⟨hall, _⟩ | ⟨c0, hc0, hmin0, hbad0, hm⟩ | ⟨c0, hc0, hmin0, hok, hg, _⟩
  · exact absurd (hall c hc).1 hbad
  · have hcc : c0 = c := by
      rcases Nat.lt_trichotomy c0 c with h | h | h
      · exact absurd (hmin c0 h).1 hbad0
      · exact h
      · exact absurd (hmin0 c h).1 hbad
    subst hcc
    exact hm
  · rcases Nat.lt_trichotomy c0 c with h | h | h
    · have := (hmin c0 h).2
      rw [hg] at this
      exact absurd this (by simp)
    · rw [h] at hok
      exact absurd hok hbad
    · exact absurd (hmin0 c h).1 hbad

/-- A run whose first non-passing cycle `c` has the right `ledr` and `ledg` low. -/
theorem main_abort_eq (d : Design σ δ) (r : Recorder σ δ ρ) (CLOCK_HZ : Int) (args : List String)
    (vo : Option String) (hargs : parseArgs args none = Except.ok vo) (c : Nat)
    (hc : c < 8 * cyclesPerSegment CLOCK_HZ)
    (hmin : ∀ c1, c1 < c → okAt d r vo (cyclesPerSegment CLOCK_HZ) c1)
    (hok : ledrAt d r vo c = levelAt expected (cyclesPerSegment CLOCK_HZ) c)
    (hg : ledgAt d r vo c = false) :
    main d r CLOCK_HZ args =
      { status := Status.assertFailed,
        log := startEvents vo ++ (passLog d r c (atCycle d r vo 0) ++
          [Event.getLedr (ledrAt d r vo c), Event.getLedg false]),
        final := atCycle d r vo c } := by
  rcases main_cases d r CLOCK_HZ args vo hargs with
    ⟨hall, _⟩ | ⟨c0, hc0, hmin0, hbad0, _⟩ | ⟨c0, hc0, hmin0, _, hg0, hm⟩
  · have := (hall c hc).2
    rw [hg] at this
    exact absurd this (by simp)
  · rcases Nat.lt_trichotomy c0 c with h | h | h
    · exact absurd (hmin c0 h).1 hbad0
    · rw [h] at hbad0
      exact absurd hok hbad0
    · have := (hmin0 c h).2
      rw [hg] at this
      exact absurd this (by simp)
  · have hcc : c0 = c := by
      rcases Nat.lt_trichotomy c0 c with h | h | h
      · have := (hmin c0 h).2
        rw [hg0] at this
        exact absurd this (by simp)
      · exact h
      · have := (hmin0 c h).2
        rw [hg] at this
        exact absurd this (by simp)
    subst hcc
    exact hm

theorem parseArgs_vcdPairs : ∀ (ps : List String) (h : ps ≠ []) (vo : Option String),
    parseArgs (vcdPairs ps) vo = Except.ok (some (ps.getLast h)) := by
  intro ps
  induction ps with
  | nil =>
      intro h
      exact absurd rfl h
  | cons p rest ih =>
      intro h vo
      cases rest with
      | nil => simp [vcdPairs, parseArgs]
      | cons q rest2 =>
          have h2 := ih (by simp) (some p)
          simp only [vcdPairs, parseArgs, if_true] at h2 ⊢
          rw [h2]
          simp

/-- In an accepted run a file is only written to the requested path, with the
recorder's final buffer. -/
theorem writeFile_mem_log (d : Design σ δ) (r : Recorder σ δ ρ) (CLOCK_HZ : Int)
    (args : List String) (vo : Option String) (hargs : parseArgs args none = Except.ok vo)
    (q b : String) (h : Event.writeFile q b ∈ (main d r CLOCK_HZ args).log) :
    vo = some q ∧ b = r.buffer (main d r CLOCK_HZ args).final.vcd := by
  obtain ⟨c, tail, _, hlog, hfinal, htail⟩ := main_shape d r CLOCK_HZ args vo hargs
  have hrst : (atCycle d r vo 0).top.p_rst = false := atCycle_rst d r vo 0
  rw [hlog] at h
  simp only [List.mem_append] at h
  rcases h with (h | h) | h
  · exact absurd h (writeFile_not_mem_startEvents _ q b)
  · exact absurd h (writeFile_not_mem_passLog d r c _ hrst q b)
  · have hend : Event.writeFile q b ∈ endEvents r vo (atCycle d r vo c) := by
      rcases htail with ⟨_, ht⟩ | ⟨_, v, i, j, ht⟩ | ⟨_, v, ht⟩
      · rw [ht] at h
        exact h
      · rw [ht] at h
        simpa using h
      · rw [ht] at h
        simp at h
    rw [hfinal]
    cases vo with
    | none => simp [endEvents] at hend
    | some p =>
        simp only [endEvents, List.mem_cons, List.mem_singleton, List.not_mem_nil, or_false,
          Event.writeFile.injEq] at hend
        rcases hend with h1 | h1
        · exact absurd h1 (by simp)
        · exact ⟨by rw [h1.1], h1.2⟩

theorem modelDeltas_append (a b : List Event) :
    modelDeltas (a ++ b) = modelDeltas a + modelDeltas b := by
  simp [modelDeltas]

theorem startEvents_modelDeltas (vo : Option String) : modelDeltas (startEvents vo) = 2 := by
  cases vo <;> rfl

theorem endEvents_modelDeltas (r : Recorder σ δ ρ) (vo : Option String) (s : Sim σ ρ) :
    modelDeltas (endEvents r vo s) = 0 := by
  cases vo <;> rfl

theorem passLog_modelDeltas (d : Design σ δ) (r : Recorder σ δ ρ) :
    ∀ (n : Nat) (s : Sim σ ρ), modelDeltas (passLog d r n s) = 2 * n := by
  intro n
  induction n with
  | zero =>
      intro s
      rfl
  | succ n ih =>
      intro s
      have h := ih (step d r s).2
      unfold modelDeltas at h ⊢
      simp only [passLog, step_log, stepEvents, List.countP_append, List.countP_cons,
        List.countP_nil, h, Event.isTopStep]
      simp
      omega

theorem sampleTimes_append (a b : List Event) :
    sampleTimes (a ++ b) = sampleTimes a ++ sampleTimes b := by
  simp [sampleTimes]

theorem startEvents_sampleTimes (vo : Option String) : sampleTimes (startEvents vo) = [0, 1] := by
  cases vo <;> rfl

theorem endEvents_sampleTimes (r : Recorder σ δ ρ) (vo : Option String) (s : Sim σ ρ) :
    sampleTimes (endEvents r vo s) = [] := by
  cases vo <;> rfl

/-- Without wrap-around, the samples of `n` passing cycles count up from the
counter value at their start. -/
theorem passLog_sampleTimes (d : Design σ δ) (r : Recorder σ δ ρ) :
    ∀ (n : Nat) (s : Sim σ ρ), s.vcd_time + 2 * n < U64 →
      sampleTimes (passLog d r n s) = List.range' s.vcd_time (2 * n) := by
  intro n
  induction n with
  | zero =>
      intro s _
      rfl
  | succ n ih =>
      intro s hs
      have ht : (step d r s).2.vcd_time = s.vcd_time + 2 := by
        rw [step_time]
        exact Nat.mod_eq_of_lt (by omega)
      have h := ih (step d r s).2 (by rw [ht]; omega)
      have h1 : (s.vcd_time + 1) % U64 = s.vcd_time + 1 := Nat.mod_eq_of_lt (by omega)
      have e : 2 * (n + 1) = 2 * n + 1 + 1 := by omega
      unfold sampleTimes at h ⊢
      rw [e]
      simp only [passLog, step_log, stepEvents, List.filterMap_append, List.filterMap_cons,
        List.filterMap_nil, Event.sampleTime, h, ht, h1, List.range'_succ]
      simp

/-! ### The recorder has no influence on the design and the counter -/

theorem step_agree {τ : Type} (d : Design σ δ) (r1 : Recorder σ δ ρ) (r2 : Recorder σ δ τ)
    (s1 : Sim σ ρ) (s2 : Sim σ τ) (ht : s1.top = s2.top) (hv : s1.vcd_time = s2.vcd_time) :
    (step d r1 s1).1 = (step d r2 s2).1 ∧ (step d r1 s1).2.top = (step d r2 s2).2.top ∧
      (step d r1 s1).2.vcd_time = (step d r2 s2).2.vcd_time := by
  rw [step_eq, step_eq]
  simp [ht, hv]

theorem afterSteps_agree {τ : Type} (d : Design σ δ) (r1 : Recorder σ δ ρ)
    (r2 : Recorder σ δ τ) :
    ∀ (c : Nat) (s1 : Sim σ ρ) (s2 : Sim σ τ), s1.top = s2.top → s1.vcd_time = s2.vcd_time →
      (afterSteps d r1 c s1).top = (afterSteps d r2 c s2).top ∧
        (afterSteps d r1 c s1).vcd_time = (afterSteps d r2 c s2).vcd_time := by
  intro c
  induction c with
  | zero =>
      intro s1 s2 ht hv
      exact ⟨ht, hv⟩
  | succ c ih =>
      intro s1 s2 ht hv
      have h := step_agree d r1 r2 s1 s2 ht hv
      exact ih (step d r1 s1).2 (step d r2 s2).2 h.2.1 h.2.2

theorem passLog_agree {τ : Type} (d : Design σ δ) (r1 : Recorder σ δ ρ) (r2 : Recorder σ δ τ) :
    ∀ (n : Nat) (s1 : Sim σ ρ) (s2 : Sim σ τ), s1.top = s2.top → s1.vcd_time = s2.vcd_time →
      passLog d r1 n s1 = passLog d r2 n s2 := by
  intro n
  induction n with
  | zero =>
      intro s1 s2 _ _
      rfl
  | succ n ih =>
      intro s1 s2 ht hv
      have h := step_agree d r1 r2 s1 s2 ht hv
      simp only [passLog, ht, h.1, ih (step d r1 s1).2 (step d r2 s2).2 h.2.1 h.2.2]

theorem atCycle_agree {τ : Type} (d : Design σ δ) (r1 : Recorder σ δ ρ) (r2 : Recorder σ δ τ)
    (vo : Option String) (c : Nat) :
    (atCycle d r1 vo c).top = (atCycle d r2 vo c).top ∧
      (atCycle d r1 vo c).vcd_time = (atCycle d r2 vo c).vcd_time := by
  unfold atCycle
  exact afterSteps_agree d r1 r2 c _ _ (by rw [startup_top, startup_top])
    (by rw [startup_time, startup_time])

theorem ledrAt_agree {τ : Type} (d : Design σ δ) (r1 : Recorder σ δ ρ) (r2 : Recorder σ δ τ)
    (vo : Option String) (c : Nat) : ledrAt d r1 vo c = ledrAt d r2 vo c := by
  unfold ledrAt
  rw [(atCycle_agree d r1 r2 vo c).1]

theorem ledgAt_agree {τ : Type} (d : Design σ δ) (r1 : Recorder σ δ ρ) (r2 : Recorder σ δ τ)
    (vo : Option String) (c : Nat) : ledgAt d r1 vo c = ledgAt d r2 vo c := by
  unfold ledgAt
  rw [(atCycle_agree d r1 r2 vo c).1]

theorem okAt_agree {τ : Type} (d : Design σ δ) (r1 : Recorder σ δ ρ) (r2 : Recorder σ δ τ)
    (vo : Option String) (cps c : Nat) (h : okAt d r1 vo cps c) : okAt d r2 vo cps c := by
  unfold okAt at h ⊢
  rw [← ledrAt_agree d r1 r2, ← ledgAt_agree d r1 r2]
  exact h

theorem endEvents_hideBuffer {τ : Type} (r1 : Recorder σ δ ρ) (r2 : Recorder σ δ τ)
    (vo : Option String) (s1 : Sim σ ρ) (s2 : Sim σ τ) (hv : s1.vcd_time = s2.vcd_time) :
    (endEvents r1 vo s1).map Event.hideBuffer = (endEvents r2 vo s2).map Event.hideBuffer := by
  cases vo <;> simp [endEvents, Event.hideBuffer, hv]

/-- Two runs of the same design with the same configuration and any two
recorders end the same way, with the same counter, the same design state and
the same events up to the content of the written file. -/
theorem main_recorder_indep {τ : Type} (d : Design σ δ) (r1 : Recorder σ δ ρ)
    (r2 : Recorder σ δ τ) (CLOCK_HZ : Int) (args : List String) :
    (main d r1 CLOCK_HZ args).status = (main d r2 CLOCK_HZ args).status ∧
    (main d r1 CLOCK_HZ args).final.vcd_time = (main d r2 CLOCK_HZ args).final.vcd_time ∧
    (main d r1 CLOCK_HZ args).final.top = (main d r2 CLOCK_HZ args).final.top ∧
    (main d r1 CLOCK_HZ args).log.map Event.hideBuffer
      = (main d r2 CLOCK_HZ args).log.map Event.hideBuffer := by
  cases hp : parseArgs args none with
  | error a =>
      rw [main_rejected d r1 CLOCK_HZ args a hp, main_rejected d r2 CLOCK_HZ args a hp]
      exact ⟨rfl, rfl, rfl, rfl⟩
  | ok vo =>
      have hpl : ∀ c, passLog d r1 c (atCycle d r1 vo 0) = passLog d r2 c (atCycle d r2 vo 0) :=
        fun c => passLog_agree d r1 r2 c _ _ (atCycle_agree d r1 r2 vo 0).1
          (atCycle_agree d r1 r2 vo 0).2
      rcases main_cases d r1 CLOCK_HZ args vo hp with
        ⟨hall, hm⟩ | ⟨c0, hc0, hmin, hbad, hm⟩ | ⟨c0, hc0, hmin, hok, hg, hm⟩
      · have hm2 := main_pass_eq d r2 CLOCK_HZ args vo hp
          (fun c hc => okAt_agree d r1 r2 vo _ c (hall c hc))
        rw [hm, hm2]
        refine ⟨rfl, (atCycle_agree d r1 r2 vo _).2, (atCycle_agree d r1 r2 vo _).1, ?_⟩
        simp only [finish_log, List.map_append, hpl]
        rw [endEvents_hideBuffer r1 r2 vo _ _ (atCycle_agree d r1 r2 vo _).2]
      · have hm2 := main_fail_eq d r2 CLOCK_HZ args vo hp c0 hc0
          (fun c hc => okAt_agree d r1 r2 vo _ c (hmin c hc))
          (by rw [← ledrAt_agree d r1 r2]; exact hbad)
        rw [hm, hm2]
        refine ⟨rfl, (atCycle_agree d r1 r2 vo _).2, (atCycle_agree d r1 r2 vo _).1, ?_⟩
        simp only [finish_log, List.map_append, hpl, ledrAt_agree d r1 r2 vo c0]
        rw [endEvents_hideBuffer r1 r2 vo _ _ (atCycle_agree d r1 r2 vo _).2]
      · have hm2 := main_abort_eq d r2 CLOCK_HZ args vo hp c0 hc0
          (fun c hc => okAt_agree d r1 r2 vo _ c (hmin c hc))
          (by rw [← ledrAt_agree d r1 r2]; exact hok)
          (by rw [← ledgAt_agree d r1 r2]; exact hg)
        rw [hm, hm2]
        refine ⟨rfl, (atCycle_agree d r1 r2 vo _).2, (atCycle_agree d r1 r2 vo _).1, ?_⟩
        simp only [List.map_append, hpl, ledrAt_agree d r1 r2 vo c0]

theorem hideBuffer_eq (x e : Event) (hne : ∀ p b, e ≠ Event.writeFile p b)
    (h : x.hideBuffer = e) : x = e := by
  cases x <;> first | exact h | exact absurd h.symm (hne _ _)

theorem mem_map_hideBuffer (l : List Event) (e : Event) (he : e.hideBuffer = e)
    (hne : ∀ p b, e ≠ Event.writeFile p b) : e ∈ l ↔ e ∈ l.map Event.hideBuffer := by
  constructor
  · intro hl
    rw [← he]
    exact List.mem_map_of_mem _ hl
  · intro hl
    obtain ⟨x, hx, hxe⟩ := List.mem_map.mp hl
    rw [← hideBuffer_eq x e hne hxe]
    exact hx

theorem resolve_eq_of_deterministic {κ : Type} (nd : NDesign κ σ δ) (hdet : nd.deterministic)
    (ω1 ω2 : Nat → κ) : nd.resolve ω1 = nd.resolve ω2 := by
  unfold NDesign.resolve
  congr
  funext clk rst st
  rw [hdet (ω1 st.2) (ω2 st.2)]

/-- The hypothesis of determinism matters: two runs of `jitter` under
different choices end after different numbers of cycles. -/
theorem jitter_runs_differ :
    (main (jitter.resolve (fun _ => false)) (mute (Int × Nat)) 4 []).final.vcd_time = 4 ∧
    (main (jitter.resolve (fun _ => true)) (mute (Int × Nat)) 4 []).final.vcd_time = 2 := by
  decide

/-! ## The claims, continued -/

/-- C11. The run uses `CLOCK_HZ` only through the truncated quotient
`CLOCK_HZ / 4`: the run with `CLOCK_HZ` and the run with
`CLOCK_HZ - CLOCK_HZ mod 4` are the same run (same events in the same order,
same status, same final statics), both for the mathematical remainder and for
the remainder of C; 1003 behaves as 1000, with 250 cycles per segment. -/
theorem remainder_dropped (d : Design σ δ) (r : Recorder σ δ ρ) (CLOCK_HZ : Int)
    (args : List String) :
    cyclesPerSegment (CLOCK_HZ - CLOCK_HZ % 4) = cyclesPerSegment CLOCK_HZ ∧
    main d r (CLOCK_HZ - CLOCK_HZ % 4) args = main d r CLOCK_HZ args ∧
    main d r (CLOCK_HZ - Int.tmod CLOCK_HZ 4) args = main d r CLOCK_HZ args ∧
    (0 ≤ CLOCK_HZ → (cyclesPerSegment CLOCK_HZ : Int) = CLOCK_HZ / 4) ∧
    cyclesPerSegment 1003 = 250 ∧ cyclesPerSegment 1000 = 250 ∧
    main d r 1003 args = main d r 1000 args := by
  have h1 : cyclesPerSegment (CLOCK_HZ - CLOCK_HZ % 4) = cyclesPerSegment CLOCK_HZ := by
    rw [cyclesPerSegment_eq, cyclesPerSegment_eq]
    omega
  have h2 : cyclesPerSegment (CLOCK_HZ - Int.tmod CLOCK_HZ 4) = cyclesPerSegment CLOCK_HZ := by
    have h := Int.tmod_add_tdiv CLOCK_HZ 4
    have e : CLOCK_HZ - Int.tmod CLOCK_HZ 4 = 4 * Int.tdiv CLOCK_HZ 4 := by omega
    rw [e]
    unfold cyclesPerSegment
    rw [Int.mul_tdiv_cancel_left _ (by omega)]
  have h3 : cyclesPerSegment 1003 = cyclesPerSegment 1000 := by decide
  refine ⟨h1, ?_, ?_, ?_, by decide, by decide, ?_⟩
  · simp only [main, h1]
  · simp only [main, h2]
  · intro h
    rw [cyclesPerSegment_eq]
    omega
  · simp only [main, h3]

/-- C11 at `CLOCK_HZ = 1003` with the expected blinker for 250 cycles per
segment. -/
theorem remainder_dropped_witness :
    (0 : Int) ≤ 1003 ∧ (cyclesPerSegment 1003 : Int) = 1003 / 4 ∧
    main (golden 250) tally (1003 - 1003 % 4) [] = main (golden 250) tally 1003 [] :=
  ⟨by decide, (remainder_dropped (golden 250) tally 1003 []).2.2.2.1 (by decide),
    (remainder_dropped (golden 250) tally 1003 []).2.1⟩

/-- C17. When `CLOCK_HZ / 4 <= 0` (which is `CLOCK_HZ < 4`), every accepted
run passes without a check: after start-up the only actions are the
"finished" line with count 1 and, if requested, the file write; `ledr` and
`ledg` are never read, `step()` is called once (the reset cycle) and `main`
returns 0. -/
theorem small_clock_passes_vacuously (d : Design σ δ) (r : Recorder σ δ ρ) (CLOCK_HZ : Int)
    (args : List String) (vo : Option String)
    (hargs : parseArgs args none = Except.ok vo)
    (hsmall : Int.tdiv CLOCK_HZ 4 ≤ 0) :
    CLOCK_HZ < 4 ∧
    (main d r CLOCK_HZ args).status = Status.exit 0 ∧
    (main d r CLOCK_HZ args).log =
      (if vo.isSome then [Event.debugInfo "top ", Event.vcdAdd] else []) ++
        [Event.setRst true,
         Event.setClk true, Event.topStep true true, Event.vcdSample 0,
         Event.setClk false, Event.topStep false true, Event.vcdSample 1,
         Event.setRst false, Event.coutFinished 1] ++
        vo.toList.map (fun p => Event.writeFile p (r.buffer (main d r CLOCK_HZ args).final.vcd)) ∧
    (∀ v, Event.getLedr v ∉ (main d r CLOCK_HZ args).log) ∧
    (∀ b, Event.getLedg b ∉ (main d r CLOCK_HZ args).log) ∧
    stepCalls (main d r CLOCK_HZ args).log = 1 ∧
    (main d r CLOCK_HZ args).final = atCycle d r vo 0 := by
  have hcps : cyclesPerSegment CLOCK_HZ = 0 := by
    unfold cyclesPerSegment
    omega
  have hlt : CLOCK_HZ < 4 := by
    by_contra hge
    have h1 : 0 ≤ CLOCK_HZ := by omega
    rw [Int.tdiv_eq_ediv h1 (by omega)] at hsmall
    omega
  have hm := main_pass_eq d r CLOCK_HZ args vo hargs (by
    intro c hc
    rw [hcps] at hc
    omega)
  rw [hcps] at hm
  have hlog : (main d r CLOCK_HZ args).log =
      (if vo.isSome then [Event.debugInfo "top ", Event.vcdAdd] else []) ++
        [Event.setRst true,
         Event.setClk true, Event.topStep true true, Event.vcdSample 0,
         Event.setClk false, Event.topStep false true, Event.vcdSample 1,
         Event.setRst false, Event.coutFinished 1] ++
        vo.toList.map (fun p => Event.writeFile p (r.buffer (main d r CLOCK_HZ args).final.vcd)) := by
    have ht : (atCycle d r vo 0).vcd_time = 2 := atCycle_time d r vo 0 (by norm_num [U64])
    rw [hm, finish_log, finish_final]
    cases vo <;> simp [startEvents, stepEvents, endEvents, passLog, ht, U64]
  refine ⟨hlt, by rw [hm, finish_status], hlog, ?_, ?_, ?_, by rw [hm, finish_final]⟩
  · intro v hv
    rw [hlog] at hv
    cases vo <;> simp at hv
  · intro b hb
    rw [hlog] at hb
    cases vo <;> simp at hb
  · rw [hlog]
    cases vo <;> simp [stepCalls]

/-- C17 at `CLOCK_HZ = -8` (quotient -2) with a design that would fail every
check. -/
theorem small_clock_passes_vacuously_witness :
    parseArgs [] none = Except.ok none ∧ Int.tdiv (-8) 4 ≤ 0 ∧
    (main wrongAndDark tally (-8) []).status = Status.exit 0 ∧
    stepCalls (main wrongAndDark tally (-8) []).log = 1 :=
  ⟨rfl, by decide,
    (small_clock_passes_vacuously wrongAndDark tally (-8) [] none rfl (by decide)).2.1,
    (small_clock_passes_vacuously wrongAndDark tally (-8) [] none rfl (by decide)).2.2.2.2.2.1⟩

/-- C18. Any number `k >= 1` of `--vcd p` pairs is accepted and the trace
destination is the last path: the parser yields `p_k`, the run is not a usage
error, registration happens, a file is only ever written to `p_k`, and it is
written whenever the run returns a status.  A path may itself be the token
`--vcd`: `--vcd --vcd` is accepted with destination `--vcd`. -/
theorem last_vcd_pair_wins (d : Design σ δ) (r : Recorder σ δ ρ) (CLOCK_HZ : Int)
    (ps : List String) (hps : ps ≠ []) :
    parseArgs (vcdPairs ps) none = Except.ok (some (ps.getLast hps)) ∧
    (main d r CLOCK_HZ (vcdPairs ps)).status ≠ Status.exit 2 ∧
    Event.vcdAdd ∈ (main d r CLOCK_HZ (vcdPairs ps)).log ∧
    (∀ q b, Event.writeFile q b ∈ (main d r CLOCK_HZ (vcdPairs ps)).log → q = ps.getLast hps) ∧
    ((main d r CLOCK_HZ (vcdPairs ps)).status ≠ Status.assertFailed →
      Event.writeFile (ps.getLast hps)
          (r.buffer (main d r CLOCK_HZ (vcdPairs ps)).final.vcd)
        ∈ (main d r CLOCK_HZ (vcdPairs ps)).log) ∧
    parseArgs ["--vcd", "--vcd"] none = Except.ok (some "--vcd") ∧
    (main d r CLOCK_HZ ["--vcd", "--vcd"]).status ≠ Status.exit 2 := by
  have hparse := parseArgs_vcdPairs ps hps none
  have hst : ∀ (args : List String) (vo : Option String),
      parseArgs args none = Except.ok vo → (main d r CLOCK_HZ args).status ≠ Status.exit 2 := by
    intro args vo h
    rcases main_status_cases d r CLOCK_HZ args vo h with h1 | h1 | h1 <;>
      · rw [h1]
        simp
  obtain ⟨c, tail, _, hlog, hfinal, htail⟩ :=
    main_shape d r CLOCK_HZ (vcdPairs ps) _ hparse
  refine ⟨hparse, hst _ _ hparse, ?_, ?_, ?_, rfl, hst _ (some "--vcd") rfl⟩
  · rw [hlog]
    simp [startEvents]
  · intro q b h
    have h1 := (writeFile_mem_log d r CLOCK_HZ _ _ hparse q b h).1
    exact (Option.some.inj h1).symm
  · intro hne
    rw [hlog, hfinal]
    rcases htail with ⟨_, ht⟩ | ⟨_, v, i, j, ht⟩ | ⟨h, _⟩
    · rw [ht]
      simp [endEvents]
    · rw [ht]
      simp [endEvents]
    · exact absurd h hne

/-- C18 at three pairs, the last path being the token `--vcd`. -/
theorem last_vcd_pair_wins_witness :
    ["a", "b", "--vcd"] ≠ [] ∧
    vcdPairs ["a", "b", "--vcd"] = ["--vcd", "a", "--vcd", "b", "--vcd", "--vcd"] ∧
    parseArgs ["--vcd", "a", "--vcd", "b", "--vcd", "--vcd"] none = Except.ok (some "--vcd") ∧
    (main (golden 1) tally 4 (vcdPairs ["a", "b", "--vcd"])).status ≠ Status.exit 2 :=
  ⟨by decide, rfl,
    (last_vcd_pair_wins (golden 1) tally 4 ["a", "b", "--vcd"] (by decide)).1,
    (last_vcd_pair_wins (golden 1) tally 4 ["a", "b", "--vcd"] (by decide)).2.1⟩

/-- C12. `main` is a total function of the design, the recorder, `CLOCK_HZ`
and the arguments.  In every accepted run the loop executes `n` cycles with
`n <= 8 * cps`: exactly `8 * cps` when the run is PASSED, strictly fewer when
it is FAILED (or ends by the assertion), and none when `CLOCK_HZ / 4 <= 0`; the
run makes `1 + n` calls of `step()` and `2 + 2 * n <= 2 + 16 * cps` model
deltas, and the delta counter ends at `2 + 2 * n`.  (`CLOCK_HZ / 4` fits the
`int` loop counter `j`; beyond that range `++j` overflows and the segment
loop of the program has no bound.) -/
theorem loop_bounded (d : Design σ δ) (r : Recorder σ δ ρ) (CLOCK_HZ : Int)
    (args : List String) (vo : Option String)
    (hargs : parseArgs args none = Except.ok vo)
    (hint : cyclesPerSegment CLOCK_HZ < 2 ^ 31) :
    ∃ n, n ≤ 8 * cyclesPerSegment CLOCK_HZ ∧
      stepCalls (main d r CLOCK_HZ args).log = 1 + n ∧
      modelDeltas (main d r CLOCK_HZ args).log = 2 + 2 * n ∧
      modelDeltas (main d r CLOCK_HZ args).log ≤ 2 + 16 * cyclesPerSegment CLOCK_HZ ∧
      (main d r CLOCK_HZ args).final = atCycle d r vo n ∧
      ((main d r CLOCK_HZ args).status = Status.exit 0 → n = 8 * cyclesPerSegment CLOCK_HZ) ∧
      ((main d r CLOCK_HZ args).status = Status.exit 1 → n < 8 * cyclesPerSegment CLOCK_HZ) ∧
      ((main d r CLOCK_HZ args).status = Status.assertFailed →
        n < 8 * cyclesPerSegment CLOCK_HZ) ∧
      ((∀ c, c < 8 * cyclesPerSegment CLOCK_HZ →
          ledrAt d r vo c = levelAt expected (cyclesPerSegment CLOCK_HZ) c ∧
          ledgAt d r vo c = true) → n = 8 * cyclesPerSegment CLOCK_HZ) ∧
      (Int.tdiv CLOCK_HZ 4 ≤ 0 → n = 0) ∧
      (main d r CLOCK_HZ args).final.vcd_time = 2 + 2 * n := by
  have hzero : Int.tdiv CLOCK_HZ 4 ≤ 0 → cyclesPerSegment CLOCK_HZ = 0 := by
    intro h
    unfold cyclesPerSegment
    omega
  have hvt : ∀ n, n ≤ 8 * cyclesPerSegment CLOCK_HZ →
      (atCycle d r vo n).vcd_time = 2 + 2 * n := by
    intro n hn
    exact atCycle_time d r vo n (by simp only [U64]; omega)
  rcases main_cases d r CLOCK_HZ args vo hargs with
    ⟨hall, hm⟩ | ⟨c0, hc0, hmin, hbad, hm⟩ | ⟨c0, hc0, hmin, hok, hg, hm⟩
  · refine ⟨8 * cyclesPerSegment CLOCK_HZ, le_refl _, ?_, ?_, ?_, by rw [hm, finish_final],
      fun _ => rfl, ?_, ?_, fun _ => rfl, ?_,
      by rw [hm, finish_final]; exact hvt _ (le_refl _)⟩
    · rw [hm, finish_log, stepCalls_append, stepCalls_append, startEvents_stepCalls,
        passLog_stepCalls, endEvents_stepCalls]
      rfl
    · rw [hm, finish_log, modelDeltas_append, modelDeltas_append, startEvents_modelDeltas,
        passLog_modelDeltas, endEvents_modelDeltas]
      rfl
    · rw [hm, finish_log, modelDeltas_append, modelDeltas_append, startEvents_modelDeltas,
        passLog_modelDeltas, endEvents_modelDeltas]
      omega
    · intro h
      rw [hm, finish_status] at h
      exact absurd h (by simp)
    · intro h
      rw [hm, finish_status] at h
      exact absurd h (by simp)
    · intro h
      rw [hzero h]
  · have hcalls : stepCalls (main d r CLOCK_HZ args).log = 1 + c0 := by
      rw [hm, finish_log, stepCalls_append, stepCalls_append, stepCalls_append,
        startEvents_stepCalls, passLog_stepCalls, endEvents_stepCalls]
      simp [stepCalls]
    have hdel : modelDeltas (main d r CLOCK_HZ args).log = 2 + 2 * c0 := by
      rw [hm, finish_log, modelDeltas_append, modelDeltas_append, modelDeltas_append,
        startEvents_modelDeltas, passLog_modelDeltas, endEvents_modelDeltas]
      simp [modelDeltas, Event.isTopStep]
    refine ⟨c0, le_of_lt hc0, hcalls, hdel, by omega, by rw [hm, finish_final], ?_,
      fun _ => hc0, fun _ => hc0, ?_, ?_,
      by rw [hm, finish_final]; exact hvt _ (le_of_lt hc0)⟩
    · intro h
      rw [hm, finish_status] at h
      exact absurd h (by simp)
    · intro h
      exact absurd (h c0 hc0).1 hbad
    · intro h
      rw [hzero h] at hc0
      omega
  · have hcalls : stepCalls (main d r CLOCK_HZ args).log = 1 + c0 := by
      rw [hm]
      simp only [stepCalls_append, startEvents_stepCalls, passLog_stepCalls]
      simp [stepCalls]
    have hdel : modelDeltas (main d r CLOCK_HZ args).log = 2 + 2 * c0 := by
      rw [hm]
      simp only [modelDeltas_append, startEvents_modelDeltas, passLog_modelDeltas]
      simp [modelDeltas, Event.isTopStep]
    refine ⟨c0, le_of_lt hc0, hcalls, hdel, by omega, by rw [hm], ?_,
      fun _ => hc0, fun _ => hc0, ?_, ?_, by rw [hm]; exact hvt _ (le_of_lt hc0)⟩
    · intro h
      rw [hm] at h
      exact absurd h (by simp)
    · intro h
      have := (h c0 hc0).2
      rw [hg] at this
      exact absurd this (by simp)
    · intro h
      rw [hzero h] at hc0
      omega

/-- C12 at a FAILED run: one cycle per segment, `ledr` wrong in cycle 3. -/
theorem loop_bounded_witness :
    parseArgs [] none = Except.ok none ∧
    cyclesPerSegment 4 < 2 ^ 31 ∧
    (main (flipAt 1 3) tally 4 []).status = Status.exit 1 ∧
    stepCalls (main (flipAt 1 3) tally 4 []).log = 1 + 3 ∧
    modelDeltas (main (flipAt 1 3) tally 4 []).log = 2 + 2 * 3 ∧
    ∃ n, n ≤ 8 * cyclesPerSegment 4 ∧
      stepCalls (main (flipAt 1 3) tally 4 []).log = 1 + n ∧
      modelDeltas (main (flipAt 1 3) tally 4 []).log = 2 + 2 * n ∧
      modelDeltas (main (flipAt 1 3) tally 4 []).log ≤ 2 + 16 * cyclesPerSegment 4 :=
  ⟨rfl, by decide, by decide, by decide, by decide,
    (loop_bounded (flipAt 1 3) tally 4 [] none rfl (by decide)).imp
      (fun _ h => ⟨h.1, h.2.1, h.2.2.1, h.2.2.2.1⟩)⟩

/-- C13. When a trace destination was requested, the first two actions of the
run are `top.debug_info(&di, nullptr, "top ")` and `vcd.add(di)`, followed by
the assertion of reset and then everything else, in which neither occurs
again: registration happens exactly once, before reset is asserted and before
any model step or sample, and the recorder the reset cycle samples into is the
constructed one with that descriptor added.  When no destination was
requested, neither action ever happens. -/
theorem registration_once_before_reset (d : Design σ δ) (r : Recorder σ δ ρ) (CLOCK_HZ : Int)
    (args : List String) (vo : Option String)
    (hargs : parseArgs args none = Except.ok vo) :
    (∀ p, vo = some p →
      (∃ rest,
        (main d r CLOCK_HZ args).log =
          [Event.debugInfo "top ", Event.vcdAdd, Event.setRst true] ++ rest ∧
        (∀ e, e ∈ rest → e ≠ Event.vcdAdd ∧ (∀ q, e ≠ Event.debugInfo q) ∧
          (∀ b, e ≠ Event.setRst b ∨ b = false))) ∧
      (main d r CLOCK_HZ args).log.count Event.vcdAdd = 1 ∧
      (atCycle d r vo 0).vcd =
        r.sample 1 { p_clk := false, p_rst := true,
                     st := d.step false true (d.step true true d.init) }
          (r.sample 0 { p_clk := true, p_rst := true, st := d.step true true d.init }
            (r.add (d.debug_info "top ") r.init))) ∧
    (vo = none →
      Event.vcdAdd ∉ (main d r CLOCK_HZ args).log ∧
      (∀ q, Event.debugInfo q ∉ (main d r CLOCK_HZ args).log)) := by
  obtain ⟨c, tail, _, hlog, _, htail⟩ := main_shape d r CLOCK_HZ args vo hargs
  have hrst : (atCycle d r vo 0).top.p_rst = false := atCycle_rst d r vo 0
  have hpass : ∀ e, e ∈ passLog d r c (atCycle d r vo 0) ++ tail →
      e ≠ Event.vcdAdd ∧ (∀ q, e ≠ Event.debugInfo q) ∧ (∀ b, e ≠ Event.setRst b) := by
    intro e he
    rcases List.mem_append.mp he with h | h
    · have hp := passLog_isPassing d r c _ hrst e h
      cases e <;> simp_all [Event.isPassing]
    · rcases htail with ⟨_, ht⟩ | ⟨_, v, i, j, ht⟩ | ⟨_, v, ht⟩ <;>
        · subst ht
          cases vo <;>
            · simp only [endEvents, List.mem_append, List.mem_cons, List.mem_singleton,
                List.not_mem_nil, or_false] at h
              cases e <;> simp_all
  refine ⟨?_, ?_⟩
  · intro p hp
    subst hp
    have hrest : ∀ e, e ∈ stepEvents 0 true ++ [Event.setRst false] ++
        (passLog d r c (atCycle d r (some p) 0) ++ tail) →
        e ≠ Event.vcdAdd ∧ (∀ q, e ≠ Event.debugInfo q) ∧
          (∀ b, e ≠ Event.setRst b ∨ b = false) := by
      intro e he
      rcases List.mem_append.mp he with h | h
      · simp only [stepEvents, List.mem_append, List.mem_cons, List.mem_singleton,
          List.not_mem_nil, or_false] at h
        cases e <;> simp_all
      · have h3 := hpass e h
        exact ⟨h3.1, h3.2.1, fun b => Or.inl (h3.2.2 b)⟩
    have hlog2 : (main d r CLOCK_HZ args).log =
        [Event.debugInfo "top ", Event.vcdAdd, Event.setRst true] ++
          (stepEvents 0 true ++ [Event.setRst false] ++
            (passLog d r c (atCycle d r (some p) 0) ++ tail)) := by
      rw [hlog]
      simp [startEvents]
    refine ⟨⟨_, hlog2, hrest⟩, ?_, ?_⟩
    · rw [hlog2, List.count_append]
      have h0 : (stepEvents 0 true ++ [Event.setRst false] ++
          (passLog d r c (atCycle d r (some p) 0) ++ tail)).count Event.vcdAdd = 0 :=
        List.count_eq_zero.mpr (fun h => (hrest _ h).1 rfl)
      rw [h0]
      rfl
    · show (startup d r (some p) (initSim d r)).2.vcd = _
      rw [startup_vcd]
      rfl
  · intro hvo
    subst hvo
    have hst : ∀ e, e ∈ startEvents none →
        e ≠ Event.vcdAdd ∧ (∀ q, e ≠ Event.debugInfo q) := by
      intro e he
      simp only [startEvents, stepEvents, Option.isSome_none, Bool.false_eq_true, if_false,
        List.nil_append, List.mem_append, List.mem_cons, List.mem_singleton, List.not_mem_nil,
        or_false] at he
      cases e <;> simp_all
    have hall : ∀ e, e ∈ (main d r CLOCK_HZ args).log →
        e ≠ Event.vcdAdd ∧ (∀ q, e ≠ Event.debugInfo q) := by
      intro e he
      rw [hlog, List.append_assoc] at he
      rcases List.mem_append.mp he with h | h
      · exact hst e h
      · exact ⟨(hpass e h).1, (hpass e h).2.1⟩
    exact ⟨fun h => (hall _ h).1 rfl, fun q h => (hall _ h).2 q rfl⟩

/-- C13 at a concrete run with tracing requested. -/
theorem registration_once_before_reset_witness :
    parseArgs ["--vcd", "o"] none = Except.ok (some "o") ∧
    (main (golden 1) tally 4 ["--vcd", "o"]).log.count Event.vcdAdd = 1 ∧
    (main (golden 1) tally 4 ["--vcd", "o"]).log.take 3 =
      [Event.debugInfo "top ", Event.vcdAdd, Event.setRst true] :=
  ⟨rfl,
    ((registration_once_before_reset (golden 1) tally 4 ["--vcd", "o"] (some "o") rfl).1
      "o" rfl).2.1,
    by decide⟩

/-- C15. In every run (accepted or not, however it ends) the timestamps passed
to `vcd.sample`, in call order, are exactly `0, 1, ..., T - 1` for the final
value `T` of `vcd_time`; the counter starts at 0.  (`CLOCK_HZ / 4` fits the
`int` loop counter, so the 64-bit counter does not wrap.) -/
theorem sample_timestamps_count_up (d : Design σ δ) (r : Recorder σ δ ρ) (CLOCK_HZ : Int)
    (args : List String) (hint : cyclesPerSegment CLOCK_HZ < 2 ^ 31) :
    (initSim d r).vcd_time = 0 ∧
    sampleTimes (main d r CLOCK_HZ args).log = List.range (main d r CLOCK_HZ args).final.vcd_time ∧
    (sampleTimes (main d r CLOCK_HZ args).log).length = (main d r CLOCK_HZ args).final.vcd_time ∧
    (∀ (k t : Nat), (sampleTimes (main d r CLOCK_HZ args).log)[k]? = some t → t = k) := by
  have hmainT : sampleTimes (main d r CLOCK_HZ args).log
      = List.range (main d r CLOCK_HZ args).final.vcd_time := by
    cases hp : parseArgs args none with
    | error a =>
        rw [main_rejected d r CLOCK_HZ args a hp]
        rfl
    | ok vo =>
        obtain ⟨c, tail, hc, hlog, hfinal, htail⟩ := main_shape d r CLOCK_HZ args vo hp
        have ht0 : (atCycle d r vo 0).vcd_time = 2 := atCycle_time d r vo 0 (by norm_num [U64])
        have htc : (atCycle d r vo c).vcd_time = 2 + 2 * c :=
          atCycle_time d r vo c (by simp only [U64]; omega)
        have hpass : sampleTimes (passLog d r c (atCycle d r vo 0)) = List.range' 2 (2 * c) := by
          rw [passLog_sampleTimes d r c _ (by rw [ht0]; simp only [U64]; omega), ht0]
        have htl : sampleTimes tail = [] := by
          rcases htail with ⟨_, ht⟩ | ⟨_, v, i, j, ht⟩ | ⟨_, v, ht⟩
          · rw [ht, endEvents_sampleTimes]
          · rw [ht, sampleTimes_append, endEvents_sampleTimes]
            rfl
          · rw [ht]
            rfl
        have h01 : ([0, 1] : List Nat) = List.range' 0 2 := rfl
        rw [hlog, hfinal, htc, sampleTimes_append, sampleTimes_append, startEvents_sampleTimes,
          hpass, htl, List.append_nil, List.range_eq_range', h01]
        have h := List.range'_append 0 2 (2 * c) 1
        simp only [Nat.zero_add, Nat.one_mul] at h
        rw [h, Nat.add_comm]
  refine ⟨rfl, hmainT, by rw [hmainT, List.length_range], ?_⟩
  intro k t hk
  rw [hmainT] at hk
  have hlt : k < (main d r CLOCK_HZ args).final.vcd_time := by
    by_contra hge
    rw [List.getElem?_eq_none (by rw [List.length_range]; omega)] at hk
    exact absurd hk (by simp)
  rw [List.getElem?_range hlt] at hk
  exact (Option.some.inj hk).symm

/-- C15 at a concrete FAILED run with tracing requested. -/
theorem sample_timestamps_count_up_witness :
    cyclesPerSegment 4 < 2 ^ 31 ∧
    (main (flipAt 1 3) tally 4 ["--vcd", "o"]).final.vcd_time = 8 ∧
    sampleTimes (main (flipAt 1 3) tally 4 ["--vcd", "o"]).log = [0, 1, 2, 3, 4, 5, 6, 7] ∧
    sampleTimes (main (flipAt 1 3) tally 4 ["--vcd", "o"]).log =
      List.range (main (flipAt 1 3) tally 4 ["--vcd", "o"]).final.vcd_time :=
  ⟨by decide, by decide, by decide,
    (sample_timestamps_count_up (flipAt 1 3) tally 4 ["--vcd", "o"] (by decide)).2.1⟩

/-- C16. In every accepted run the statics between `step()` calls are those
before the reset cycle (counter 0, no call made) and those at the start of a
verification cycle `k` (counter `2 * (k + 1)`, after `k + 1` calls): the
counter is even and twice the number of calls made so far.  At the end the
counter is twice the number of `step()` calls of the run, and a printed value
`vcd_time >> 1` is exactly that number: one reset cycle plus the verification
cycles executed, with no half-cycle dropped.  (`CLOCK_HZ / 4` fits the `int`
loop counter.) -/
theorem clock_is_twice_step_calls (d : Design σ δ) (r : Recorder σ δ ρ) (CLOCK_HZ : Int)
    (args : List String) (vo : Option String)
    (hargs : parseArgs args none = Except.ok vo)
    (hint : cyclesPerSegment CLOCK_HZ < 2 ^ 31) :
    (initSim d r).vcd_time = 2 * 0 ∧
    (∀ k, k ≤ 8 * cyclesPerSegment CLOCK_HZ →
      (atCycle d r vo k).vcd_time = 2 * (k + 1) ∧ (atCycle d r vo k).vcd_time % 2 = 0 ∧
      (atCycle d r vo k).top.p_clk = false) ∧
    (∃ n, n ≤ 8 * cyclesPerSegment CLOCK_HZ ∧
      (main d r CLOCK_HZ args).final = atCycle d r vo n ∧
      stepCalls (main d r CLOCK_HZ args).log = 1 + n) ∧
    (main d r CLOCK_HZ args).final.vcd_time = 2 * stepCalls (main d r CLOCK_HZ args).log ∧
    (∀ N, Event.coutFinished N ∈ (main d r CLOCK_HZ args).log →
      N = stepCalls (main d r CLOCK_HZ args).log ∧
      2 * N = (main d r CLOCK_HZ args).final.vcd_time) := by
  have htime : ∀ k, k ≤ 8 * cyclesPerSegment CLOCK_HZ →
      (atCycle d r vo k).vcd_time = 2 * (k + 1) := by
    intro k hk
    rw [atCycle_time d r vo k (by simp only [U64]; omega)]
    omega
  have hclk : ∀ k, (atCycle d r vo k).top.p_clk = false := by
    intro k
    cases k with
    | zero =>
        show (startup d r vo (initSim d r)).2.top.p_clk = false
        rw [startup_top]
    | succ k =>
        have h : atCycle d r vo (k + 1) = (step d r (atCycle d r vo k)).2 :=
          afterSteps_succ d r k _
        rw [h, step_clk]
  have hrst : (atCycle d r vo 0).top.p_rst = false := atCycle_rst d r vo 0
  obtain ⟨c, tail, hc, hlog, hfinal, htail⟩ := main_shape d r CLOCK_HZ args vo hargs
  have htl : stepCalls tail = 0 ∧ ∀ N, Event.coutFinished N ∈ tail → N = 1 + c := by
    have hend : ∀ N, Event.coutFinished N ∈ endEvents r vo (atCycle d r vo c) → N = 1 + c := by
      intro N hN
      rw [coutFinished_mem_endEvents, htime c hc] at hN
      omega
    rcases htail with ⟨_, ht⟩ | ⟨_, v, i, j, ht⟩ | ⟨_, v, ht⟩
    · rw [ht]
      exact ⟨endEvents_stepCalls r vo _, hend⟩
    · rw [ht]
      refine ⟨by rw [stepCalls_append, endEvents_stepCalls]; rfl, ?_⟩
      intro N hN
      simp only [List.mem_append, List.mem_cons, List.mem_singleton, List.not_mem_nil,
        or_false] at hN
      rcases hN with (h | h) | h
      · exact absurd h (by simp)
      · exact absurd h (by simp)
      · exact hend N h
    · rw [ht]
      refine ⟨rfl, ?_⟩
      intro N hN
      simp at hN
  have hcalls : stepCalls (main d r CLOCK_HZ args).log = 1 + c := by
    rw [hlog, stepCalls_append, stepCalls_append, startEvents_stepCalls, passLog_stepCalls,
      htl.1]
    rfl
  have hfin : (main d r CLOCK_HZ args).final.vcd_time
      = 2 * stepCalls (main d r CLOCK_HZ args).log := by
    rw [hfinal, htime c hc, hcalls]
    omega
  refine ⟨rfl, fun k hk => ⟨htime k hk, by rw [htime k hk]; omega, hclk k⟩,
    ⟨c, hc, hfinal, hcalls⟩, hfin, ?_⟩
  intro N hN
  rw [hlog] at hN
  simp only [List.mem_append] at hN
  have hNc : N = 1 + c := by
    rcases hN with (h | h) | h
    · exact absurd h (coutFinished_not_mem_startEvents vo N)
    · exact absurd h (coutFinished_not_mem_passLog d r c _ hrst N)
    · exact htl.2 N h
  rw [hfin, hcalls, hNc]
  exact ⟨rfl, rfl⟩

/-- C16 at the conforming run with one cycle per segment. -/
theorem clock_is_twice_step_calls_witness :
    parseArgs [] none = Except.ok none ∧ cyclesPerSegment 4 < 2 ^ 31 ∧
    stepCalls (main (golden 1) tally 4 []).log = 9 ∧
    Event.coutFinished 9 ∈ (main (golden 1) tally 4 []).log ∧
    (main (golden 1) tally 4 []).final.vcd_time = 2 * stepCalls (main (golden 1) tally 4 []).log :=
  ⟨rfl, by decide, by decide, by decide,
    (clock_is_twice_step_calls (golden 1) tally 4 [] none rfl (by decide)).2.2.2.1⟩

/-- C14. For a deterministic design (one whose deltas do not depend on the
choices an environment could make), any two runs with the same argument list
and the same `CLOCK_HZ` (and the one `expected` of the program), whatever the
choices `ω1`, `ω2` offered in each: with the same recorder the two runs are
equal as a whole; with any two recorders they still have the same outcome
(status or assertion), the same final counter and hence cycle count, and the
same events, among them the same report `(i, j)` and the same printed count,
up to the content of the written file. -/
theorem runs_of_deterministic_design_agree {κ τ : Type} (nd : NDesign κ σ δ)
    (hdet : nd.deterministic) (ω1 ω2 : Nat → κ)
    (r1 : Recorder (σ × Nat) δ ρ) (r2 : Recorder (σ × Nat) δ τ)
    (CLOCK_HZ : Int) (args : List String) :
    main (nd.resolve ω1) r1 CLOCK_HZ args = main (nd.resolve ω2) r1 CLOCK_HZ args ∧
    (main (nd.resolve ω1) r1 CLOCK_HZ args).status
      = (main (nd.resolve ω2) r2 CLOCK_HZ args).status ∧
    (main (nd.resolve ω1) r1 CLOCK_HZ args).final.vcd_time
      = (main (nd.resolve ω2) r2 CLOCK_HZ args).final.vcd_time ∧
    (main (nd.resolve ω1) r1 CLOCK_HZ args).log.map Event.hideBuffer
      = (main (nd.resolve ω2) r2 CLOCK_HZ args).log.map Event.hideBuffer ∧
    (∀ i j, Event.cerrLedr i j ∈ (main (nd.resolve ω1) r1 CLOCK_HZ args).log ↔
      Event.cerrLedr i j ∈ (main (nd.resolve ω2) r2 CLOCK_HZ args).log) ∧
    (∀ N, Event.coutFinished N ∈ (main (nd.resolve ω1) r1 CLOCK_HZ args).log ↔
      Event.coutFinished N ∈ (main (nd.resolve ω2) r2 CLOCK_HZ args).log) := by
  have hd : nd.resolve ω1 = nd.resolve ω2 := resolve_eq_of_deterministic nd hdet ω1 ω2
  have h := main_recorder_indep (nd.resolve ω2) r1 r2 CLOCK_HZ args
  have hmem : ∀ e, e.hideBuffer = e → (∀ p b, e ≠ Event.writeFile p b) →
      (e ∈ (main (nd.resolve ω2) r1 CLOCK_HZ args).log ↔
        e ∈ (main (nd.resolve ω2) r2 CLOCK_HZ args).log) := by
    intro e he hne
    exact (mem_map_hideBuffer _ e he hne).trans
      ((by rw [h.2.2.2] : e ∈ (main (nd.resolve ω2) r1 CLOCK_HZ args).log.map Event.hideBuffer ↔
          e ∈ (main (nd.resolve ω2) r2 CLOCK_HZ args).log.map Event.hideBuffer).trans
        (mem_map_hideBuffer _ e he hne).symm)
  rw [hd]
  exact ⟨rfl, h.1, h.2.1, h.2.2.2, fun i j => hmem _ rfl (by simp),
    fun N => hmem _ rfl (by simp)⟩

/-- C14 at the expected blinker (which ignores the choices), two different
choice sequences and two different recorders. -/
theorem runs_of_deterministic_design_agree_witness :
    (ignoring (golden 1)).deterministic ∧
    (main ((ignoring (golden 1)).resolve (fun _ => false)) (tallyOn _) 4 ["--vcd", "o"]).status
      = (main ((ignoring (golden 1)).resolve (fun _ => true)) (mute _) 4 ["--vcd", "o"]).status ∧
    (main ((ignoring (golden 1)).resolve (fun _ => false)) (tallyOn _) 4
        ["--vcd", "o"]).final.vcd_time
      = (main ((ignoring (golden 1)).resolve (fun _ => true)) (mute _) 4
        ["--vcd", "o"]).final.vcd_time :=
  ⟨fun _ _ _ _ _ => rfl,
    (runs_of_deterministic_design_agree (ignoring (golden 1)) (fun _ _ _ _ _ => rfl)
      (fun _ => false) (fun _ => true) (tallyOn _) (mute _) 4 ["--vcd", "o"]).2.1,
    (runs_of_deterministic_design_agree (ignoring (golden 1)) (fun _ _ _ _ _ => rfl)
      (fun _ => false) (fun _ => true) (tallyOn _) (mute _) 4 ["--vcd", "o"]).2.2.1⟩

end Niar
